import Mathlib

/-!
A shallow embedding of the Shenandoah free-set core of this repository
(src/hotspot/share/gc/shenandoah/shenandoahFreeSet.{hpp,cpp}):
the simple bitmap (ShenandoahSimpleBitMap), the region partition table
(ShenandoahRegionPartitions) and the free-set rebuild / reserve /
allocation logic (ShenandoahFreeSet), together with theorems checking
the specification's claims about them.

Conventions of the embedding:
* size_t values are embedded as Nat.  Bitmap words are 64-bit
  (_bits_per_array_element = HeapWordSize * 8 = 64 on LP64) and always
  stay below 2 ^ 64, so plain Nat bitwise operations agree with the
  machine ones.  A 64-bit complement mask such as `~m` is written as
  `allOnes64 - m` where `allOnes64 = 2 ^ 64 - 1` (for m ≤ allOnes64 these
  coincide bit for bit).
* ssize_t index fields that can hold the sentinel -1 (interval bounds)
  are embedded as Int; bitmap bit indices, which are non-negative in
  every reachable call (asserted preconditions in the source), are Nat.
* C++ loops are embedded as fuel-based recursion; the fuel passed by the
  wrappers is proved sufficient wherever a claim depends on it.
* The host heap (ShenandoahHeap and its regions) is embedded as the
  narrow query interface the free set consumes: a capacity function
  `cap : Nat → Nat` for alloc_capacity(idx), and Boolean per-region
  predicates where needed.
-/

namespace Shenandoah

/-- Word width of the bitmap array: _bits_per_array_element = HeapWordSize * 8. -/
def bitsPerArrayElement : Nat := 64

/-- Value of a size_t with all bits set, i.e. (size_t) (ssize_t) -1. -/
def allOnes64 : Nat := 2 ^ 64 - 1

/-- Reads one word of the packed bit array (_bitmap[array_idx]); reads past the
end of the allocation (undefined behaviour in the source, reachable only from
precondition-violating calls) are totalized to 0. -/
def bitWord (bitmap : List Nat) (array_idx : Nat) : Nat :=
  bitmap.getD array_idx 0

/-- Embeds ShenandoahSimpleBitMap::is_set (shenandoahFreeSet.hpp, lines 125-132). -/
def is_set (bitmap : List Nat) (idx : Nat) : Bool :=
  let array_idx := idx / bitsPerArrayElement
  let bit_number := idx % bitsPerArrayElement
  let the_bit := 1 <<< bit_number
  bitWord bitmap array_idx &&& the_bit != 0

/-- Embeds ShenandoahSimpleBitMap::set_bit (shenandoahFreeSet.hpp, lines 108-114). -/
def set_bit (bitmap : List Nat) (idx : Nat) : List Nat :=
  let array_idx := idx / bitsPerArrayElement
  let bit_number := idx % bitsPerArrayElement
  let the_bit := 1 <<< bit_number
  bitmap.set array_idx (bitWord bitmap array_idx ||| the_bit)

/-- Embeds ShenandoahSimpleBitMap::clear_bit (shenandoahFreeSet.hpp, lines 116-123);
`&= ~the_bit` is the 64-bit complement mask `allOnes64 - the_bit`. -/
def clear_bit (bitmap : List Nat) (idx : Nat) : List Nat :=
  let array_idx := idx / bitsPerArrayElement
  let bit_number := idx % bitsPerArrayElement
  let the_bit := 1 <<< bit_number
  bitmap.set array_idx (bitWord bitmap array_idx &&& (allOnes64 - the_bit))

/-- Embeds ShenandoahSimpleBitMap::clear_all (shenandoahFreeSet.hpp, lines 71-75)
for a bitmap of num_bits bits: _num_words zero words. -/
def clear_all (num_bits : Nat) : List Nat :=
  List.replicate ((num_bits + (bitsPerArrayElement - 1)) / bitsPerArrayElement) 0

/-- Embeds the word value used by the scanning loops: _bitmap[array_idx] with the
bits below bit_number masked out (`element_bits &= ~mask_out`, e.g.
shenandoahFreeSet.cpp lines 311-317). -/
def maskedWordFrom (bitmap : List Nat) (start_idx : Nat) : Nat :=
  let array_idx := start_idx / bitsPerArrayElement
  let bit_number := start_idx % bitsPerArrayElement
  let element_bits := bitWord bitmap array_idx
  if bit_number > 0 then
    let mask_out := (1 <<< bit_number) - 1
    element_bits &&& (allOnes64 - mask_out)
  else element_bits

/-- Embeds the downward for-loop of ShenandoahSimpleBitMap::count_trailing_ones
(shenandoahFreeSet.cpp, lines 101-103): counts ones from bit position
bit_number downward in element_bits (the loop variable the_bit of the source
is 1 <<< bit_number, halved each iteration, so the recursion is structural in
bit_number). -/
def count_ones_downward (element_bits : Nat) : Nat → Nat
  | 0 => if element_bits &&& 1 != 0 then 1 else 0
  | bit_number + 1 =>
    if element_bits &&& (1 <<< (bit_number + 1)) != 0 then
      1 + count_ones_downward element_bits bit_number
    else 0

/-- Embeds the recursion of ShenandoahSimpleBitMap::count_trailing_ones
(shenandoahFreeSet.cpp, lines 80-110) with explicit fuel (each recursive call
moves to the previous word, so last_idx / 64 + 1 units of fuel suffice).
The source requires a zero bit at or below last_idx; on inputs violating that
precondition the recursion would reach index -1 (undefined behaviour), and the
embedding instead stops and returns the ones counted so far. -/
def count_trailing_ones_loop (bitmap : List Nat) : Nat → Nat → Nat
  | 0, _ => 0
  | fuel + 1, last_idx =>
    let array_idx := last_idx / bitsPerArrayElement
    let element_bits := bitWord bitmap array_idx
    let bit_number := last_idx % bitsPerArrayElement
    let the_bit := 1 <<< bit_number
    let mask := the_bit * 2 - 1
    if element_bits &&& mask == mask then
      let counted_ones := bit_number + 1
      if counted_ones ≤ last_idx then
        counted_ones + count_trailing_ones_loop bitmap fuel (last_idx - counted_ones)
      else counted_ones
    else count_ones_downward element_bits bit_number

/-- Embeds ShenandoahSimpleBitMap::count_trailing_ones (shenandoahFreeSet.cpp,
lines 80-110). -/
def count_trailing_ones (bitmap : List Nat) (last_idx : Nat) : Nat :=
  count_trailing_ones_loop bitmap (last_idx / bitsPerArrayElement + 1) last_idx

/-- Embeds the recursion of ShenandoahSimpleBitMap::is_forward_consecutive_ones
(shenandoahFreeSet.cpp, lines 112-151) with explicit fuel (count decreases by
at least one per recursive call, so count + 1 units suffice);
`& ~exclude_mask` is the 64-bit complement mask, and `(size_t)(ssize_t)-1`
is allOnes64. -/
def is_forward_consecutive_ones_loop (bitmap : List Nat) : Nat → Nat → Nat → Bool
  | 0, _, _ => false
  | fuel + 1, start_idx, count =>
    let array_idx := start_idx / bitsPerArrayElement
    let bit_number := start_idx % bitsPerArrayElement
    let element_bits := bitWord bitmap array_idx
    if count ≤ bitsPerArrayElement - bit_number then
      let overreach_mask := (1 <<< (bit_number + count)) - 1
      let exclude_mask := (1 <<< bit_number) - 1
      let exact_mask := overreach_mask &&& (allOnes64 - exclude_mask)
      element_bits &&& exact_mask == exact_mask
    else
      let overreach_mask := allOnes64
      let exclude_mask := (1 <<< bit_number) - 1
      let exact_mask := overreach_mask &&& (allOnes64 - exclude_mask)
      if element_bits &&& exact_mask == exact_mask then
        let matched_bits := bitsPerArrayElement - bit_number
        is_forward_consecutive_ones_loop bitmap fuel (start_idx + matched_bits) (count - matched_bits)
      else false

/-- Embeds ShenandoahSimpleBitMap::is_forward_consecutive_ones
(shenandoahFreeSet.cpp, lines 112-151). -/
def is_forward_consecutive_ones (bitmap : List Nat) (start_idx count : Nat) : Bool :=
  is_forward_consecutive_ones_loop bitmap (count + 1) start_idx count

/-- Embeds the upward bit scan inside ShenandoahSimpleBitMap::find_next_set_bit
(shenandoahFreeSet.cpp, lines 213-227), recursion structural in the remaining
width 64 - bit_number: the first position ≥ bit_number (and < 64) at which
element_bits has a set bit, or 64 when there is none (the `assert(false)`
fall-through of the source, reachable only on junk words). -/
def scan_up_loop (element_bits : Nat) : Nat → Nat → Nat
  | 0, _ => bitsPerArrayElement
  | remaining + 1, bit_number =>
    if element_bits &&& (1 <<< bit_number) != 0 then bit_number
    else scan_up_loop element_bits remaining (bit_number + 1)

/-- The inner while loop of find_next_set_bit, entered at bit position
bit_number < 64. -/
def scan_up (element_bits bit_number : Nat) : Nat :=
  scan_up_loop element_bits (bitsPerArrayElement - bit_number) bit_number

/-- Embeds the do-while loop of ShenandoahSimpleBitMap::find_next_set_bit
(shenandoahFreeSet.cpp, lines 199-237) as fuel-based recursion; each
iteration either returns or advances start_idx to the next word boundary. -/
def find_next_set_bit_loop (bitmap : List Nat) (boundary_idx : Nat) :
    Nat → Nat → Nat
  | 0, _ => boundary_idx
  | fuel + 1, start_idx =>
    let array_idx := start_idx / bitsPerArrayElement
    let bit_number := start_idx % bitsPerArrayElement
    let element_bits := maskedWordFrom bitmap start_idx
    if element_bits ≠ 0 then
      let candidate_result := array_idx * bitsPerArrayElement + scan_up element_bits bit_number
      if candidate_result < boundary_idx then candidate_result else boundary_idx
    else
      let next_idx := start_idx + (bitsPerArrayElement - bit_number)
      if next_idx < boundary_idx then find_next_set_bit_loop bitmap boundary_idx fuel next_idx
      else boundary_idx

/-- Embeds ShenandoahSimpleBitMap::find_next_set_bit(start_idx, boundary_idx)
(shenandoahFreeSet.cpp, lines 191-239).  Preconditions of the source:
0 ≤ start_idx < num_bits and start_idx < boundary_idx ≤ num_bits. -/
def find_next_set_bit (bitmap : List Nat) (start_idx boundary_idx : Nat) : Nat :=
  find_next_set_bit_loop bitmap boundary_idx (boundary_idx + 1) start_idx

/-- Embeds the downward bit scan inside ShenandoahSimpleBitMap::find_prev_set_bit
(shenandoahFreeSet.cpp, lines 266-283): the greatest position ≤ bit_number at
which element_bits has a set bit; on a word with no set bit at or below
bit_number (the `assert(false)` fall-through) it returns bit_number + 1 as a
junk marker mirroring index underflow. -/
def scan_down (element_bits bit_number : Nat) : Nat :=
  if element_bits &&& (1 <<< bit_number) != 0 then bit_number
  else
    match bit_number with
    | 0 => bitsPerArrayElement
    | b + 1 => scan_down element_bits b

/-- Embeds the do-while loop of ShenandoahSimpleBitMap::find_prev_set_bit
(shenandoahFreeSet.cpp, lines 246-291); last_idx and boundary_idx are ssize_t
(boundary may be -1). -/
def find_prev_set_bit_loop (bitmap : List Nat) (boundary_idx : Int) :
    Nat → Int → Int
  | 0, _ => boundary_idx
  | fuel + 1, last_idx =>
    let array_idx := (last_idx.toNat) / bitsPerArrayElement
    let bit_number := (last_idx.toNat) % bitsPerArrayElement
    let element_bits :=
      if bit_number < 63 then
        bitWord bitmap array_idx &&& ((1 <<< (bit_number + 1)) - 1)
      else bitWord bitmap array_idx
    if element_bits ≠ 0 then
      let candidate_result : Int := array_idx * bitsPerArrayElement + scan_down element_bits bit_number
      if candidate_result > boundary_idx then candidate_result else boundary_idx
    else
      let next_idx : Int := last_idx - (bit_number + 1)
      if next_idx > boundary_idx then find_prev_set_bit_loop bitmap boundary_idx fuel next_idx
      else boundary_idx

/-- Embeds ShenandoahSimpleBitMap::find_prev_set_bit(last_idx, boundary_idx)
(shenandoahFreeSet.cpp, lines 246-296).  Preconditions of the source:
0 ≤ last_idx < num_bits and -1 ≤ boundary_idx < last_idx. -/
def find_prev_set_bit (bitmap : List Nat) (last_idx : Nat) (boundary_idx : Int) : Int :=
  find_prev_set_bit_loop bitmap boundary_idx (last_idx + 1) (last_idx : Int)

/-- Embeds the while loop of ShenandoahSimpleBitMap::find_next_consecutive_bits
(shenandoahFreeSet.cpp, lines 318-343).  The loop state reduces to start_idx:
array_idx, bit_number and element_bits are recomputed from it exactly as the
source maintains them.  The guard `start_idx <= start_boundary` with
start_boundary = boundary_idx - num_bits is written additively to stay in Nat. -/
def find_next_consecutive_bits_loop (bitmap : List Nat) (num_bits boundary_idx : Nat) :
    Nat → Nat → Nat
  | 0, _ => boundary_idx
  | fuel + 1, start_idx =>
    if start_idx + num_bits ≤ boundary_idx then
      let bit_number := start_idx % bitsPerArrayElement
      let element_bits := maskedWordFrom bitmap start_idx
      if element_bits = 0 then
        find_next_consecutive_bits_loop bitmap num_bits boundary_idx fuel
          (start_idx + (bitsPerArrayElement - bit_number))
      else if is_forward_consecutive_ones bitmap start_idx num_bits then
        start_idx
      else
        let trailing_ones := count_trailing_ones bitmap (start_idx + num_bits - 1)
        find_next_consecutive_bits_loop bitmap num_bits boundary_idx fuel
          (start_idx + (num_bits - trailing_ones))
    else boundary_idx

/-- Embeds ShenandoahSimpleBitMap::find_next_consecutive_bits(num_bits,
start_idx, boundary_idx) (shenandoahFreeSet.cpp, lines 303-346).
Precondition of the source: 0 ≤ start_idx < num_bits of the map. -/
def find_next_consecutive_bits (bitmap : List Nat) (num_bits start_idx boundary_idx : Nat) : Nat :=
  find_next_consecutive_bits_loop bitmap num_bits boundary_idx (boundary_idx + 1) start_idx

/-! ### ShenandoahRegionPartitions -/

/-- The two free partitions of ShenandoahFreeSetPartitionId (shenandoahFreeSet.hpp,
lines 167-171).  NotFree is the absence of membership in either bitmap and is not
an array index (NumPartitions = NotFree = 2), so it has no constructor here. -/
inductive PartitionId where
  | Mutator
  | Collector
deriving DecidableEq

/-- An array indexed by the two free partitions (the C++ arrays of length
NumPartitions = 2). -/
structure PerPartition (α : Type) where
  mutator : α
  collector : α
deriving DecidableEq

/-- Reads entry p of a per-partition array. -/
def PerPartition.get {α : Type} (f : PerPartition α) : PartitionId → α
  | .Mutator => f.mutator
  | .Collector => f.collector

/-- Writes entry p of a per-partition array. -/
def PerPartition.set {α : Type} (f : PerPartition α) (p : PartitionId) (v : α) : PerPartition α :=
  match p with
  | .Mutator => { f with mutator := v }
  | .Collector => { f with collector := v }

/-- Builds a per-partition array with both entries equal (the reset loops of
the source that run over all partition ids). -/
def PerPartition.both {α : Type} (v : α) : PerPartition α := ⟨v, v⟩

/-- State of ShenandoahRegionPartitions (shenandoahFreeSet.hpp, lines 181-216).
Interval bounds are ssize_t (they hold the sentinel -1), embedded as Int;
capacity / used / region counts are size_t, embedded as Nat. -/
structure RegionPartitions where
  max : Nat
  region_size_bytes : Nat
  membership : PerPartition (List Nat)
  leftmosts : PerPartition Int
  rightmosts : PerPartition Int
  leftmosts_empty : PerPartition Int
  rightmosts_empty : PerPartition Int
  capacity : PerPartition Nat
  used : PerPartition Nat
  region_counts : PerPartition Nat
deriving DecidableEq

/-- Embeds ShenandoahRegionPartitions::make_all_regions_unavailable
(shenandoahFreeSet.cpp, lines 503-517). -/
def make_all_regions_unavailable (s : RegionPartitions) : RegionPartitions :=
  { s with
    membership := PerPartition.both (clear_all s.max)
    leftmosts := PerPartition.both (s.max : Int)
    rightmosts := PerPartition.both (-1)
    leftmosts_empty := PerPartition.both (s.max : Int)
    rightmosts_empty := PerPartition.both (-1)
    capacity := PerPartition.both 0
    used := PerPartition.both 0
    region_counts := PerPartition.both 0 }

/-- Embeds the ShenandoahRegionPartitions constructor (shenandoahFreeSet.cpp,
lines 432-439): fresh bitmaps followed by make_all_regions_unavailable. -/
def RegionPartitions.init (max_regions region_size_bytes : Nat) : RegionPartitions :=
  make_all_regions_unavailable
    { max := max_regions
      region_size_bytes := region_size_bytes
      membership := PerPartition.both (clear_all max_regions)
      leftmosts := PerPartition.both (max_regions : Int)
      rightmosts := PerPartition.both (-1)
      leftmosts_empty := PerPartition.both (max_regions : Int)
      rightmosts_empty := PerPartition.both (-1)
      capacity := PerPartition.both 0
      used := PerPartition.both 0
      region_counts := PerPartition.both 0 }

/-- Embeds ShenandoahRegionPartitions::leftmost (shenandoahFreeSet.cpp,
lines 485-494): the cached hint, clamped to _max. -/
def RegionPartitions.leftmost (s : RegionPartitions) (p : PartitionId) : Int :=
  if s.leftmosts.get p ≥ (s.max : Int) then (s.max : Int) else s.leftmosts.get p

/-- Embeds ShenandoahRegionPartitions::rightmost (shenandoahFreeSet.cpp,
lines 496-501). -/
def RegionPartitions.rightmost (s : RegionPartitions) (p : PartitionId) : Int :=
  s.rightmosts.get p

/-- Embeds ShenandoahRegionPartitions::in_free_set (shenandoahFreeSet.hpp,
lines 280-282). -/
def RegionPartitions.in_free_set (s : RegionPartitions) (p : PartitionId) (idx : Nat) : Bool :=
  is_set (s.membership.get p) idx

/-- Embeds ShenandoahRegionPartitions::is_empty (shenandoahFreeSet.cpp,
lines 797-800). -/
def RegionPartitions.partition_is_empty (s : RegionPartitions) (p : PartitionId) : Bool :=
  s.leftmost p > s.rightmost p

/-- Modelled from the spec: ShenandoahRegionPartitions::available_in, used at
shenandoahFreeSet.cpp line 1582 but declared outside the sources provided;
spec section 4.4 reads it as the partition's available bytes and line 1542
computes the same quantity as capacity_of(Collector) - used_by(Collector). -/
def RegionPartitions.available_in (s : RegionPartitions) (p : PartitionId) : Nat :=
  s.capacity.get p - s.used.get p

/-- Embeds ShenandoahRegionPartitions::increase_used (shenandoahFreeSet.cpp,
lines 545-551). -/
def increase_used (s : RegionPartitions) (p : PartitionId) (bytes : Nat) : RegionPartitions :=
  { s with used := s.used.set p (s.used.get p + bytes) }

/-- Embeds ShenandoahRegionPartitions::raw_set_membership (shenandoahFreeSet.hpp,
lines 236-238): sets the bit without touching intervals or totals. -/
def raw_set_membership (s : RegionPartitions) (idx : Nat) (p : PartitionId) : RegionPartitions :=
  { s with membership := s.membership.set p (set_bit (s.membership.get p) idx) }

/-- Embeds ShenandoahRegionPartitions::establish_intervals (shenandoahFreeSet.cpp,
lines 519-543). -/
def establish_intervals (s : RegionPartitions)
    (mutator_leftmost mutator_rightmost mutator_leftmost_empty mutator_rightmost_empty : Int)
    (mutator_region_count mutator_used : Nat) : RegionPartitions :=
  { s with
    region_counts := ⟨mutator_region_count, 0⟩
    leftmosts := ⟨mutator_leftmost, (s.max : Int)⟩
    rightmosts := ⟨mutator_rightmost, -1⟩
    leftmosts_empty := ⟨mutator_leftmost_empty, (s.max : Int)⟩
    rightmosts_empty := ⟨mutator_rightmost_empty, -1⟩
    used := ⟨mutator_used, 0⟩
    capacity := ⟨mutator_region_count * s.region_size_bytes, 0⟩ }

/-- Embeds ShenandoahRegionPartitions::find_index_of_next_available_region
(shenandoahFreeSet.cpp, lines 803-818). -/
def find_index_of_next_available_region (s : RegionPartitions) (p : PartitionId)
    (start_index : Int) : Int :=
  let rightmost_idx := s.rightmost p
  let leftmost_idx := s.leftmost p
  if rightmost_idx < leftmost_idx ∨ start_index > rightmost_idx then (s.max : Int)
  else
    let start_index := if start_index < leftmost_idx then leftmost_idx else start_index
    let result : Int := find_next_set_bit (s.membership.get p) start_index.toNat (rightmost_idx + 1).toNat
    if result > rightmost_idx then (s.max : Int) else result

/-- Embeds ShenandoahRegionPartitions::find_index_of_previous_available_region
(shenandoahFreeSet.cpp, lines 821-837). -/
def find_index_of_previous_available_region (s : RegionPartitions) (p : PartitionId)
    (last_index : Int) : Int :=
  let rightmost_idx := s.rightmost p
  let leftmost_idx := s.leftmost p
  if last_index < leftmost_idx then -1
  else
    let last_index := if last_index > rightmost_idx then rightmost_idx else last_index
    let result := find_prev_set_bit (s.membership.get p) last_index.toNat (-1)
    if result < leftmost_idx then -1 else result

/-- Embeds ShenandoahRegionPartitions::find_index_of_next_available_cluster_of_regions
(shenandoahFreeSet.cpp, lines 840-860). -/
def find_index_of_next_available_cluster_of_regions (s : RegionPartitions) (p : PartitionId)
    (start_index : Int) (cluster_size : Nat) : Int :=
  let rightmost_idx := s.rightmost p
  let leftmost_idx := s.leftmost p
  if rightmost_idx < leftmost_idx ∨ start_index > rightmost_idx then (s.max : Int)
  else
    let result : Int :=
      find_next_consecutive_bits (s.membership.get p) cluster_size start_index.toNat (rightmost_idx + 1).toNat
    if result > rightmost_idx then (s.max : Int) else result

/-- Embeds the for loop of ShenandoahRegionPartitions::leftmost_empty
(shenandoahFreeSet.cpp, lines 892-900) with explicit fuel: idx strictly grows
through find_index_of_next_available_region, so _max + 1 units suffice; fuel
exhaustion (unreachable in reachable states) is totalized to the not-found
exit of the source. -/
def leftmost_empty_loop (cap : Nat → Nat) (p : PartitionId) :
    Nat → RegionPartitions → Int → Int × RegionPartitions
  | 0, s, _ =>
    ((s.max : Int),
     { s with leftmosts_empty := s.leftmosts_empty.set p (s.max : Int)
              rightmosts_empty := s.rightmosts_empty.set p (-1) })
  | fuel + 1, s, idx =>
    if idx < (s.max : Int) then
      if cap idx.toNat = s.region_size_bytes then
        (idx, { s with leftmosts_empty := s.leftmosts_empty.set p idx })
      else
        leftmost_empty_loop cap p fuel s (find_index_of_next_available_region s p (idx + 1))
    else
      ((s.max : Int),
       { s with leftmosts_empty := s.leftmosts_empty.set p (s.max : Int)
                rightmosts_empty := s.rightmosts_empty.set p (-1) })

/-- Embeds ShenandoahRegionPartitions::leftmost_empty (shenandoahFreeSet.cpp,
lines 886-904).  The function memoizes into _leftmosts_empty (and resets both
empty bounds when no empty region is found), so it returns the updated state
alongside the result; cap embeds _free_set->alloc_capacity. -/
def leftmost_empty (cap : Nat → Nat) (s : RegionPartitions) (p : PartitionId) :
    Int × RegionPartitions :=
  if s.leftmosts_empty.get p = (s.max : Int) then ((s.max : Int), s)
  else
    leftmost_empty_loop cap p (s.max + 1) s
      (find_index_of_next_available_region s p (s.leftmosts_empty.get p))

/-- Embeds the for loop of ShenandoahRegionPartitions::rightmost_empty
(shenandoahFreeSet.cpp, lines 911-918) with explicit fuel. -/
def rightmost_empty_loop (cap : Nat → Nat) (p : PartitionId) :
    Nat → RegionPartitions → Int → Int × RegionPartitions
  | 0, s, _ =>
    (-1,
     { s with leftmosts_empty := s.leftmosts_empty.set p (s.max : Int)
              rightmosts_empty := s.rightmosts_empty.set p (-1) })
  | fuel + 1, s, idx =>
    if idx ≥ 0 then
      if cap idx.toNat = s.region_size_bytes then
        (idx, { s with rightmosts_empty := s.rightmosts_empty.set p idx })
      else
        rightmost_empty_loop cap p fuel s (find_index_of_previous_available_region s p (idx - 1))
    else
      (-1,
       { s with leftmosts_empty := s.leftmosts_empty.set p (s.max : Int)
                rightmosts_empty := s.rightmosts_empty.set p (-1) })

/-- Embeds ShenandoahRegionPartitions::rightmost_empty (shenandoahFreeSet.cpp,
lines 906-922). -/
def rightmost_empty (cap : Nat → Nat) (s : RegionPartitions) (p : PartitionId) :
    Int × RegionPartitions :=
  if s.rightmosts_empty.get p < 0 then (-1, s)
  else
    rightmost_empty_loop cap p (s.max + 1) s
      (find_index_of_previous_available_region s p (s.rightmosts_empty.get p))

/-- The body of the leftmost branch shared by the two interval-shrinking
functions (shenandoahFreeSet.cpp, lines 556-567 and 592-603): store the
recomputed _leftmosts value and lazily tighten _leftmosts_empty to it when the
memoized scan falls short of the new leftmost. -/
def shrink_store_leftmost (cap : Nat → Nat) (s : RegionPartitions) (p : PartitionId)
    (new_leftmost : Int) : RegionPartitions :=
  let sA := { s with leftmosts := s.leftmosts.set p new_leftmost }
  let scanned := leftmost_empty cap sA p
  if scanned.1 < scanned.2.leftmost p then
    { scanned.2 with leftmosts_empty := scanned.2.leftmosts_empty.set p (scanned.2.leftmost p) }
  else scanned.2

/-- The body of the rightmost branch shared by the two interval-shrinking
functions (shenandoahFreeSet.cpp, lines 568-579 and 604-615). -/
def shrink_store_rightmost (cap : Nat → Nat) (s : RegionPartitions) (p : PartitionId)
    (new_rightmost : Int) : RegionPartitions :=
  let sB := { s with rightmosts := s.rightmosts.set p new_rightmost }
  let scanned := rightmost_empty cap sB p
  if scanned.1 > scanned.2.rightmost p then
    { scanned.2 with rightmosts_empty := scanned.2.rightmosts_empty.set p (scanned.2.rightmost p) }
  else scanned.2

/-- The closing step of the interval-shrinking functions (shenandoahFreeSet.cpp,
lines 580-585 and 616-621): when the interval has crossed, reset all four
bounds of the partition to the canonical empty encoding. -/
def shrink_canonicalize_if_crossed (s : RegionPartitions) (p : PartitionId) : RegionPartitions :=
  if s.leftmost p > s.rightmost p then
    { s with
      leftmosts := s.leftmosts.set p (s.max : Int)
      rightmosts := s.rightmosts.set p (-1)
      leftmosts_empty := s.leftmosts_empty.set p (s.max : Int)
      rightmosts_empty := s.rightmosts_empty.set p (-1) }
  else s

/-- Embeds ShenandoahRegionPartitions::shrink_interval_if_boundary_modified
(shenandoahFreeSet.cpp, lines 590-622).  The calls to leftmost_empty and
rightmost_empty are the memoizing scans above, so they thread the state;
the recomputed bound values are read off the pre-assignment state, exactly
as the assignments of the source do. -/
def shrink_interval_if_boundary_modified (cap : Nat → Nat) (s : RegionPartitions)
    (p : PartitionId) (idx : Int) : RegionPartitions :=
  let s1 :=
    if idx = s.leftmost p then
      shrink_store_leftmost cap s p
        (if idx + 1 = (s.max : Int) then (s.max : Int)
         else find_index_of_next_available_region s p (idx + 1))
    else s
  let s2 :=
    if idx = s1.rightmost p then
      shrink_store_rightmost cap s1 p
        (if idx = 0 then -1
         else find_index_of_previous_available_region s1 p (idx - 1))
    else s1
  shrink_canonicalize_if_crossed s2 p

/-- Embeds ShenandoahRegionPartitions::shrink_interval_if_range_modifies_either_boundary
(shenandoahFreeSet.cpp, lines 553-588). -/
def shrink_interval_if_range_modifies_either_boundary (cap : Nat → Nat) (s : RegionPartitions)
    (p : PartitionId) (low_idx high_idx : Int) : RegionPartitions :=
  let s1 :=
    if low_idx = s.leftmost p then
      shrink_store_leftmost cap s p
        (if high_idx + 1 = (s.max : Int) then (s.max : Int)
         else find_index_of_next_available_region s p (high_idx + 1))
    else s
  let s2 :=
    if high_idx = s1.rightmost p then
      shrink_store_rightmost cap s1 p
        (if low_idx = 0 then -1
         else find_index_of_previous_available_region s1 p (low_idx - 1))
    else s1
  shrink_canonicalize_if_crossed s2 p

/-- The empty-interval widening step of expand_interval_if_boundary_modified
(shenandoahFreeSet.cpp, lines 639-646); the comparisons against
leftmost_empty(partition) and rightmost_empty(partition) call the memoizing
scans, exactly as the source does. -/
def expand_empty_bounds (cap : Nat → Nat) (s : RegionPartitions) (p : PartitionId)
    (idx : Int) : RegionPartitions :=
  let scannedL := leftmost_empty cap s p
  let s3 :=
    if scannedL.1 > idx then
      { scannedL.2 with leftmosts_empty := scannedL.2.leftmosts_empty.set p idx }
    else scannedL.2
  let scannedR := rightmost_empty cap s3 p
  if scannedR.1 < idx then
    { scannedR.2 with rightmosts_empty := scannedR.2.rightmosts_empty.set p idx }
  else scannedR.2

/-- Embeds ShenandoahRegionPartitions::expand_interval_if_boundary_modified
(shenandoahFreeSet.cpp, lines 624-651). -/
def expand_interval_if_boundary_modified (cap : Nat → Nat) (s : RegionPartitions)
    (p : PartitionId) (idx : Int) (region_available : Nat) : RegionPartitions :=
  let s1 := if s.leftmost p > idx then { s with leftmosts := s.leftmosts.set p idx } else s
  let s2 := if s1.rightmost p < idx then { s1 with rightmosts := s1.rightmosts.set p idx } else s1
  if region_available = s.region_size_bytes then expand_empty_bounds cap s2 p idx
  else s2

/-- Embeds ShenandoahRegionPartitions::retire_from_partition (shenandoahFreeSet.cpp,
lines 681-701).  The count decrement is a size_t decrement; in every legal call
the region is a member, so the count is positive and Nat subtraction agrees. -/
def retire_from_partition (cap : Nat → Nat) (s : RegionPartitions) (p : PartitionId)
    (idx : Nat) (used_bytes : Nat) : RegionPartitions :=
  let s1 :=
    if used_bytes < s.region_size_bytes then
      increase_used s p (s.region_size_bytes - used_bytes)
    else s
  let s2 := { s1 with membership := s1.membership.set p (clear_bit (s1.membership.get p) idx) }
  let s3 := shrink_interval_if_boundary_modified cap s2 p (idx : Int)
  { s3 with region_counts := s3.region_counts.set p (s3.region_counts.get p - 1) }

/-- Clears the membership bits of the range low_idx..high_idx (the for loop of
retire_range_from_partition, shenandoahFreeSet.cpp lines 663-666). -/
def clear_bits_in_range (bitmap : List Nat) (low_idx high_idx : Nat) : List Nat :=
  (List.range' low_idx (high_idx + 1 - low_idx)).foldl clear_bit bitmap

/-- Embeds ShenandoahRegionPartitions::retire_range_from_partition
(shenandoahFreeSet.cpp, lines 655-677). -/
def retire_range_from_partition (cap : Nat → Nat) (s : RegionPartitions) (p : PartitionId)
    (low_idx high_idx : Nat) : RegionPartitions :=
  let s1 := { s with membership := s.membership.set p (clear_bits_in_range (s.membership.get p) low_idx high_idx) }
  let s2 := { s1 with region_counts := s1.region_counts.set p (s1.region_counts.get p - (high_idx + 1 - low_idx)) }
  shrink_interval_if_range_modifies_either_boundary cap s2 p (low_idx : Int) (high_idx : Int)

/-- Embeds ShenandoahRegionPartitions::make_free (shenandoahFreeSet.cpp,
lines 703-715). -/
def make_free (cap : Nat → Nat) (s : RegionPartitions) (idx : Nat) (p : PartitionId)
    (available : Nat) : RegionPartitions :=
  let s1 :=
    { s with
      membership := s.membership.set p (set_bit (s.membership.get p) idx)
      capacity := s.capacity.set p (s.capacity.get p + s.region_size_bytes)
      used := s.used.set p (s.used.get p + (s.region_size_bytes - available)) }
  let s2 := expand_interval_if_boundary_modified cap s1 p (idx : Int) available
  { s2 with region_counts := s2.region_counts.set p (s2.region_counts.get p + 1) }

/-- Embeds ShenandoahRegionPartitions::move_from_partition_to_partition
(shenandoahFreeSet.cpp, lines 717-760).  Capacity, used and count transfers
are size_t arithmetic; in every legal call (asserted transitions) the source
partition owns the region, so Nat subtraction agrees. -/
def move_from_partition_to_partition (cap : Nat → Nat) (s : RegionPartitions) (idx : Nat)
    (orig_partition new_partition : PartitionId) (available : Nat) : RegionPartitions :=
  let used := s.region_size_bytes - available
  let m1 := s.membership.set orig_partition (clear_bit (s.membership.get orig_partition) idx)
  let m2 := m1.set new_partition (set_bit (m1.get new_partition) idx)
  let s1 :=
    { s with
      membership := m2
      capacity := s.capacity.set orig_partition (s.capacity.get orig_partition - s.region_size_bytes)
      used := s.used.set orig_partition (s.used.get orig_partition - used) }
  let s2 := shrink_interval_if_boundary_modified cap s1 orig_partition (idx : Int)
  let s3 :=
    { s2 with
      capacity := s2.capacity.set new_partition (s2.capacity.get new_partition + s2.region_size_bytes)
      used := s2.used.set new_partition (s2.used.get new_partition + used) }
  let s4 := expand_interval_if_boundary_modified cap s3 new_partition (idx : Int) available
  let counts1 := s4.region_counts.set orig_partition (s4.region_counts.get orig_partition - 1)
  { s4 with region_counts := counts1.set new_partition (counts1.get new_partition + 1) }

/-! ### ShenandoahFreeSet -/

/-- The narrow host-region interface the free set consumes (ShenandoahHeap and
ShenandoahHeapRegion queries; spec section 6). -/
structure HeapEnv where
  num_regions : Nat
  free : Nat → Nat
  is_trash : Nat → Bool
  is_alloc_allowed : Nat → Bool
  max_capacity : Nat

/-- Embeds ShenandoahFreeSet::alloc_capacity (shenandoahFreeSet.cpp,
lines 456-468): region_size_bytes for trash (it would be recycled on the
allocation path), the region's free bytes otherwise. -/
def alloc_capacity (h : HeapEnv) (region_size_bytes : Nat) (idx : Nat) : Nat :=
  if h.is_trash idx then region_size_bytes else h.free idx

/-- Running totals accumulated by ShenandoahFreeSet::find_regions_with_alloc_capacity
(shenandoahFreeSet.cpp, lines 1408-1419).  All fields are size_t locals. -/
structure RebuildAccum where
  mutator_leftmost : Nat
  mutator_rightmost : Nat
  mutator_leftmost_empty : Nat
  mutator_rightmost_empty : Nat
  mutator_regions : Nat
  mutator_used : Nat
  cset_regions : Nat

/-- One iteration of the region scan of find_regions_with_alloc_capacity
(shenandoahFreeSet.cpp, lines 1421-1470); plab_min_size_bytes embeds
PLAB::min_size() * HeapWordSize. -/
def find_regions_step (h : HeapEnv) (plab_min_size_bytes : Nat)
    (sa : RegionPartitions × RebuildAccum) (idx : Nat) : RegionPartitions × RebuildAccum :=
  let s := sa.1
  let a := sa.2
  let a := if h.is_trash idx then { a with cset_regions := a.cset_regions + 1 } else a
  if h.is_alloc_allowed idx || h.is_trash idx then
    let ac := alloc_capacity h s.region_size_bytes idx
    if ac > plab_min_size_bytes then
      let s := raw_set_membership s idx .Mutator
      let a :=
        { a with
          mutator_leftmost := if idx < a.mutator_leftmost then idx else a.mutator_leftmost
          mutator_rightmost := if idx > a.mutator_rightmost then idx else a.mutator_rightmost
          mutator_leftmost_empty :=
            if ac = s.region_size_bytes ∧ idx < a.mutator_leftmost_empty then idx
            else a.mutator_leftmost_empty
          mutator_rightmost_empty :=
            if ac = s.region_size_bytes ∧ idx > a.mutator_rightmost_empty then idx
            else a.mutator_rightmost_empty
          mutator_regions := a.mutator_regions + 1
          mutator_used := a.mutator_used + (s.region_size_bytes - ac) }
      (s, a)
    else (s, a)
  else (s, a)

/-- Embeds ShenandoahFreeSet::find_regions_with_alloc_capacity
(shenandoahFreeSet.cpp, lines 1406-1474); returns the rebuilt partitions and
the cset_regions out-parameter.  clear_internal (line 1409) is
make_all_regions_unavailable (lines 1398-1400). -/
def find_regions_with_alloc_capacity (h : HeapEnv) (plab_min_size_bytes : Nat)
    (s : RegionPartitions) : RegionPartitions × Nat :=
  let s0 := make_all_regions_unavailable s
  let init : RebuildAccum :=
    { mutator_leftmost := s0.max
      mutator_rightmost := 0
      mutator_leftmost_empty := s0.max
      mutator_rightmost_empty := 0
      mutator_regions := 0
      mutator_used := 0
      cset_regions := 0 }
  let sa := (List.range h.num_regions).foldl (find_regions_step h plab_min_size_bytes) (s0, init)
  (establish_intervals sa.1 (sa.2.mutator_leftmost : Int) (sa.2.mutator_rightmost : Int)
     (sa.2.mutator_leftmost_empty : Int) (sa.2.mutator_rightmost_empty : Int)
     sa.2.mutator_regions sa.2.mutator_used,
   sa.2.cset_regions)

/-- Embeds the countdown loop of ShenandoahFreeSet::reserve_regions
(shenandoahFreeSet.cpp, lines 1571-1600); the counter runs from num_regions
down, idx = i - 1, and `break` returns the state unchanged. -/
def reserve_regions_loop (h : HeapEnv) (to_reserve : Nat) : Nat → RegionPartitions → RegionPartitions
  | 0, s => s
  | i + 1, s =>
    let idx := i
    if ¬ (s.in_free_set .Mutator idx = true) then reserve_regions_loop h to_reserve i s
    else
      let ac := alloc_capacity h s.region_size_bytes idx
      let move_to_collector := s.available_in .Collector < to_reserve
      if ¬ move_to_collector then s
      else
        reserve_regions_loop h to_reserve i
          (move_from_partition_to_partition (alloc_capacity h s.region_size_bytes) s idx
            .Mutator .Collector ac)

/-- Embeds ShenandoahFreeSet::reserve_regions (shenandoahFreeSet.cpp,
lines 1567-1609). -/
def reserve_regions (h : HeapEnv) (s : RegionPartitions) (to_reserve : Nat) : RegionPartitions :=
  reserve_regions_loop h to_reserve h.num_regions s

/-- Embeds ShenandoahFreeSet::finish_rebuild (shenandoahFreeSet.cpp,
lines 1535-1556); evac_reserve embeds ShenandoahEvacReserve (percent).  The
local additional_reserve of the source is computed but never used, and the
cset_regions parameter is unused, so both are omitted. -/
def finish_rebuild (h : HeapEnv) (evac_reserve : Nat) (s : RegionPartitions) : RegionPartitions :=
  let reserve := h.max_capacity * evac_reserve / 100
  reserve_regions h s reserve

/-- Embeds ShenandoahFreeSet::rebuild (shenandoahFreeSet.cpp, lines 1558-1562):
prepare_to_rebuild (= find_regions_with_alloc_capacity, lines 1526-1533)
followed by finish_rebuild. -/
def rebuild (h : HeapEnv) (plab_min_size_bytes evac_reserve : Nat)
    (s : RegionPartitions) : RegionPartitions :=
  finish_rebuild h evac_reserve (find_regions_with_alloc_capacity h plab_min_size_bytes s).1

/-! ### Allocation dispatch and the allocation bias -/

/-- The request types of ShenandoahAllocRequest (_alloc_tlab, _alloc_gclab,
_alloc_shared, _alloc_shared_gc), as dispatched on in ShenandoahFreeSet::allocate
and allocate_single. -/
inductive AllocType where
  | tlab
  | gclab
  | shared
  | shared_gc
deriving DecidableEq

/-- The slice of ShenandoahAllocRequest consumed by the dispatch logic. -/
structure AllocRequest where
  type : AllocType
  size : Nat
  min_size : Nat

/-- Modelled from the spec: ShenandoahAllocRequest::is_mutator_alloc
(the class is not among the sources provided).  Spec sections 4.3 and 6 group
TLAB and shared as mutator kinds, GC-lab and shared-GC as collector kinds. -/
def is_mutator_alloc : AllocType → Bool
  | .tlab => true
  | .shared => true
  | .gclab => false
  | .shared_gc => false

/-- Which allocator ShenandoahFreeSet::allocate hands the request to. -/
inductive AllocPath where
  | single
  | contiguous
  | lab_humongous_fatal
deriving DecidableEq

/-- Outcome of the dispatch in ShenandoahFreeSet::allocate: the chosen path,
whether the path raises assert(false), and the value stored to in_new_region
before dispatch (none when allocate_single stores it later).  On the
lab_humongous_fatal path the source returns nullptr without touching the
free-set state. -/
structure AllocDispatch where
  path : AllocPath
  assertion_failed : Bool
  in_new_region : Option Bool
deriving DecidableEq

/-- Embeds ShenandoahFreeSet::allocate (shenandoahFreeSet.cpp, lines 1760-1783);
humongous_threshold_words embeds ShenandoahHeapRegion::humongous_threshold_words(). -/
def allocate_dispatch (humongous_threshold_words : Nat) (req : AllocRequest) : AllocDispatch :=
  if req.size > humongous_threshold_words then
    match req.type with
    | .shared => ⟨.contiguous, false, some true⟩
    | .shared_gc => ⟨.contiguous, false, some true⟩
    | .gclab => ⟨.lab_humongous_fatal, true, some false⟩
    | .tlab => ⟨.lab_humongous_fatal, true, some false⟩
  else ⟨.single, false, none⟩

/-- The entry assertion of ShenandoahFreeSet::allocate_contiguous
(shenandoahFreeSet.cpp, line 1253): assert(req.is_mutator_alloc(), ...). -/
def allocate_contiguous_entry_assertion (req : AllocRequest) : Bool :=
  is_mutator_alloc req.type

/-- The allocation-bias fields of ShenandoahFreeSet (_alloc_bias_weight is
ssize_t, shenandoahFreeSet.hpp lines 388-389). -/
structure AllocBiasState where
  alloc_bias_weight : Int
  right_to_left_bias : Bool
deriving DecidableEq

/-- Embeds the `if (_alloc_bias_weight-- <= 0) { ... }` block at the head of the
mutator case of ShenandoahFreeSet::allocate_single (shenandoahFreeSet.cpp,
lines 1062-1082): the post-decrement compares the old value; when it crossed
zero the two memoized scans run and the scan direction is recomputed from the
interval differences, and the weight is reset to 256. -/
def update_allocation_bias (cap : Nat → Nat) (s : RegionPartitions) (b : AllocBiasState) :
    RegionPartitions × AllocBiasState :=
  let w0 := b.alloc_bias_weight
  if w0 ≤ 0 then
    let scannedL := leftmost_empty cap s .Mutator
    let non_empty_on_left := scannedL.1 - scannedL.2.leftmost .Mutator
    let scannedR := rightmost_empty cap scannedL.2 .Mutator
    let non_empty_on_right := scannedR.2.rightmost .Mutator - scannedR.1
    (scannedR.2,
     { alloc_bias_weight := 256
       right_to_left_bias := non_empty_on_right > non_empty_on_left })
  else (s, { b with alloc_bias_weight := w0 - 1 })

/-- Specification-side count used by claim C8 (stated there in place of the
index differences the code computes): the number of regions with index in
[lo, hi) that are not fully empty, reading alloc_capacity(j) = region_size
as fully empty. -/
def claimed_non_empty_region_count (cap : Nat → Nat) (region_size_bytes lo hi : Nat) : Nat :=
  ((List.range (hi - lo)).map (fun d => lo + d)).countP (fun j => cap j != region_size_bytes)

/-! ### Specification-level predicates, the state invariant and reachability -/

/-- Specification-level reading of a run of bits: bits start, ..., start + count - 1
are all set. -/
def AllSetIn (bitmap : List Nat) (start count : Nat) : Prop :=
  ∀ j, j < count → is_set bitmap (start + j) = true

instance (bitmap : List Nat) (start count : Nat) : Decidable (AllSetIn bitmap start count) :=
  Nat.decidableBallLT count fun j _ => is_set bitmap (start + j) = true

/-- Number of words backing a bitmap of num_bits bits (_num_words,
shenandoahFreeSet.hpp line 59). -/
def numWordsFor (num_bits : Nat) : Nat :=
  (num_bits + (bitsPerArrayElement - 1)) / bitsPerArrayElement

/-- Well-formedness of one partition of the table, maintained by every legal
operation: the bitmap has its allocated size with 64-bit words and no bits at
or above _max; the interval bounds are exact (the bits at both bounds are set
and every member lies between them — the source's assert_bounds); an empty
partition carries the canonical empty bounds save that a rebuild that found no
regions leaves rightmost at 0; and the empty-interval hints are never tighter
than the fully-empty members. -/
structure PartInv (s : RegionPartitions) (cap : Nat → Nat) (p : PartitionId) : Prop where
  len_eq : (s.membership.get p).length = numWordsFor s.max
  words_lt : ∀ w ∈ s.membership.get p, w < 2 ^ 64
  no_high : ∀ j, s.max ≤ j → is_set (s.membership.get p) j = false
  bounds : ∀ i, is_set (s.membership.get p) i = true →
    s.leftmosts.get p ≤ (i : Int) ∧ (i : Int) ≤ s.rightmosts.get p
  left_member : (∃ i, is_set (s.membership.get p) i = true) →
    0 ≤ s.leftmosts.get p ∧ s.leftmosts.get p < (s.max : Int) ∧
      is_set (s.membership.get p) (s.leftmosts.get p).toNat = true
  right_member : (∃ i, is_set (s.membership.get p) i = true) →
    0 ≤ s.rightmosts.get p ∧ s.rightmosts.get p < (s.max : Int) ∧
      is_set (s.membership.get p) (s.rightmosts.get p).toNat = true
  empty_encoding : (∀ i, is_set (s.membership.get p) i = false) →
    s.leftmosts.get p = (s.max : Int) ∧
      (s.rightmosts.get p = -1 ∨ s.rightmosts.get p = 0)
  empty_bounds : ∀ i, is_set (s.membership.get p) i = true → cap i = s.region_size_bytes →
    s.leftmosts_empty.get p ≤ (i : Int) ∧ (i : Int) ≤ s.rightmosts_empty.get p
  le_range : 0 ≤ s.leftmosts_empty.get p ∧ s.leftmosts_empty.get p ≤ (s.max : Int)
  re_range : -1 ≤ s.rightmosts_empty.get p ∧ s.rightmosts_empty.get p < (s.max : Int)

/-- The whole-table invariant maintained by every legal operation, including
the disjointness of the two membership bitmaps. -/
structure Inv (s : RegionPartitions) (cap : Nat → Nat) : Prop where
  max_pos : 0 < s.max
  cap_le : ∀ i, cap i ≤ s.region_size_bytes
  disjoint : ∀ i, ¬(is_set (s.membership.get .Mutator) i = true ∧
    is_set (s.membership.get .Collector) i = true)
  parts : ∀ p, PartInv s cap p

/-- The states (s, cap) the partition table can be in on a public-call
boundary: s is the table state and cap the host's current alloc_capacity
view.  Steps are the public operations of ShenandoahRegionPartitions /
ShenandoahFreeSet with the preconditions their callers establish (the
asserted preconditions of the source), the memoizing interval queries, and
environment steps in which the host regions change so long as the capacity
of a region in a free partition never grows (allocations consume capacity;
trash recycling keeps it at region_size) and never exceeds the region size. -/
inductive Reachable : RegionPartitions → (Nat → Nat) → Prop where
  | init (max_regions region_size_bytes : Nat) (cap : Nat → Nat) :
      0 < max_regions → (∀ i, cap i ≤ region_size_bytes) →
      Reachable (RegionPartitions.init max_regions region_size_bytes) cap
  | rebuild (s : RegionPartitions) (cap : Nat → Nat) (h : HeapEnv) (plab : Nat) :
      Reachable s cap →
      h.num_regions = s.max →
      (∀ i, alloc_capacity h s.region_size_bytes i = cap i) →
      Reachable (find_regions_with_alloc_capacity h plab s).1 cap
  | reserve (s : RegionPartitions) (cap : Nat → Nat) (h : HeapEnv) (to_reserve : Nat) :
      Reachable s cap →
      h.num_regions = s.max →
      (∀ i, alloc_capacity h s.region_size_bytes i = cap i) →
      Reachable (reserve_regions h s to_reserve) cap
  | make_free_step (s : RegionPartitions) (cap : Nat → Nat) (idx : Nat) (p : PartitionId) :
      Reachable s cap → idx < s.max →
      is_set (s.membership.get .Mutator) idx = false →
      is_set (s.membership.get .Collector) idx = false →
      Reachable (make_free cap s idx p (cap idx)) cap
  | retire (s : RegionPartitions) (cap : Nat → Nat) (p : PartitionId) (idx used_bytes : Nat) :
      Reachable s cap → idx < s.max →
      is_set (s.membership.get p) idx = true →
      Reachable (retire_from_partition cap s p idx used_bytes) cap
  | retire_range (s : RegionPartitions) (cap : Nat → Nat) (p : PartitionId) (low high : Nat) :
      Reachable s cap → low ≤ high → high < s.max →
      (∀ i, low ≤ i → i ≤ high → is_set (s.membership.get p) i = true) →
      Reachable (retire_range_from_partition cap s p low high) cap
  | move (s : RegionPartitions) (cap : Nat → Nat) (idx : Nat) (orig new_p : PartitionId) :
      Reachable s cap → idx < s.max → orig ≠ new_p →
      is_set (s.membership.get orig) idx = true →
      Reachable (move_from_partition_to_partition cap s idx orig new_p (cap idx)) cap
  | query_lme (s : RegionPartitions) (cap : Nat → Nat) (p : PartitionId) :
      Reachable s cap → Reachable (leftmost_empty cap s p).2 cap
  | query_rme (s : RegionPartitions) (cap : Nat → Nat) (p : PartitionId) :
      Reachable s cap → Reachable (rightmost_empty cap s p).2 cap
  | bias (s : RegionPartitions) (cap : Nat → Nat) (b : AllocBiasState) :
      Reachable s cap → Reachable (update_allocation_bias cap s b).1 cap
  | inc_used (s : RegionPartitions) (cap : Nat → Nat) (p : PartitionId) (bytes : Nat) :
      Reachable s cap → Reachable (increase_used s p bytes) cap
  | env (s : RegionPartitions) (cap cap2 : Nat → Nat) :
      Reachable s cap →
      (∀ i, cap2 i ≤ s.region_size_bytes) →
      (∀ i, is_set (s.membership.get .Mutator) i = true ∨
            is_set (s.membership.get .Collector) i = true → cap2 i ≤ cap i) →
      Reachable s cap2


/-! ### Concrete scenario states used by the claim checks -/

/-- One-word bitmap with only bit 0 set (num_bits 4 would occupy one word). -/
def exampleBitmapC3 : List Nat := [1]

/-- A host capacity view with no allocatable space anywhere. -/
def capZero : Nat → Nat := fun _ => 0

/-- Four 1-KiB regions, region 0 made free in the Mutator partition with its
full region size available. -/
def c1_after_make_free : RegionPartitions :=
  make_free capZero (RegionPartitions.init 4 1024) 0 .Mutator 1024

/-- The same state after region 0 is retired completely full
(used_bytes = region_size_bytes). -/
def c1_after_retire : RegionPartitions :=
  retire_from_partition capZero c1_after_make_free .Mutator 0 1024

/-- The host of the spec's concrete scenario 1: 16 empty 1-MiB regions. -/
def c4_heap : HeapEnv :=
  { num_regions := 16
    free := fun _ => 1048576
    is_trash := fun _ => false
    is_alloc_allowed := fun _ => true
    max_capacity := 16 * 1048576 }

/-- State after prepare_to_rebuild on c4_heap: all 16 regions in Mutator. -/
def c4_after_prepare : RegionPartitions :=
  { max := 16, region_size_bytes := 1048576, membership := ⟨[65535], [0]⟩
    leftmosts := ⟨0, 16⟩, rightmosts := ⟨15, -1⟩, leftmosts_empty := ⟨0, 16⟩
    rightmosts_empty := ⟨15, -1⟩, capacity := ⟨16777216, 0⟩, used := ⟨0, 0⟩
    region_counts := ⟨16, 0⟩ }

/-- State after region 15 moves to the Collector during reserve_regions. -/
def c4_after_move15 : RegionPartitions :=
  { max := 16, region_size_bytes := 1048576, membership := ⟨[32767], [32768]⟩
    leftmosts := ⟨0, 15⟩, rightmosts := ⟨14, 15⟩, leftmosts_empty := ⟨0, 15⟩
    rightmosts_empty := ⟨14, 15⟩, capacity := ⟨15728640, 1048576⟩, used := ⟨0, 0⟩
    region_counts := ⟨15, 1⟩ }

/-- State after regions 15 and 14 have moved to the Collector. -/
def c4_after_move14 : RegionPartitions :=
  { max := 16, region_size_bytes := 1048576, membership := ⟨[16383], [49152]⟩
    leftmosts := ⟨0, 14⟩, rightmosts := ⟨13, 15⟩, leftmosts_empty := ⟨0, 14⟩
    rightmosts_empty := ⟨13, 15⟩, capacity := ⟨14680064, 2097152⟩, used := ⟨0, 0⟩
    region_counts := ⟨14, 2⟩ }

/-- State after regions 15, 14 and 13 have moved to the Collector. -/
def c4_after_move13 : RegionPartitions :=
  { max := 16, region_size_bytes := 1048576, membership := ⟨[8191], [57344]⟩
    leftmosts := ⟨0, 13⟩, rightmosts := ⟨12, 15⟩, leftmosts_empty := ⟨0, 13⟩
    rightmosts_empty := ⟨12, 15⟩, capacity := ⟨13631488, 3145728⟩, used := ⟨0, 0⟩
    region_counts := ⟨13, 3⟩ }

/-- State after regions 15, 14, 13 and 12 have moved to the Collector: the
final state of the rebuild, since the Collector then holds 4 MiB
≥ 3355443 bytes and the loop breaks at region 11. -/
def c4_final : RegionPartitions :=
  { max := 16, region_size_bytes := 1048576, membership := ⟨[4095], [61440]⟩
    leftmosts := ⟨0, 12⟩, rightmosts := ⟨11, 15⟩, leftmosts_empty := ⟨0, 12⟩
    rightmosts_empty := ⟨11, 15⟩, capacity := ⟨12582912, 4194304⟩, used := ⟨0, 0⟩
    region_counts := ⟨12, 4⟩ }

/-- A host on which no region qualifies for the free set (all full). -/
def c5_heap : HeapEnv :=
  { num_regions := 4
    free := fun _ => 0
    is_trash := fun _ => false
    is_alloc_allowed := fun _ => true
    max_capacity := 4096 }

/-- Result of prepare_to_rebuild on c5_heap: an empty Mutator partition. -/
def c5_rebuilt : RegionPartitions :=
  (find_regions_with_alloc_capacity c5_heap 128 (RegionPartitions.init 4 1024)).1

/-- Host capacities for the C8 scenario: region 0 is a partly used Mutator
member, regions 1-3 are fully empty non-members (trash recycled since the
last rebuild), 4-9 are fully empty members, 10-12 partly used members. -/
def c8_cap : Nat → Nat := fun j =>
  if j = 0 then 512 else if j ≤ 9 then 1024 else if j ≤ 12 then 512 else 0

/-- Partition state for the C8 scenario: Mutator members 0 and 4-12 (word
8177), exact interval hints. -/
def c8_state : RegionPartitions :=
  { max := 16, region_size_bytes := 1024
    membership := ⟨[8177], [0]⟩
    leftmosts := ⟨0, 16⟩, rightmosts := ⟨12, -1⟩
    leftmosts_empty := ⟨4, 16⟩, rightmosts_empty := ⟨9, -1⟩
    capacity := ⟨10240, 0⟩, used := ⟨2048, 0⟩, region_counts := ⟨10, 0⟩ }


/-! ## Theorems

### Bit-level toolkit -/


theorem testBit_mul_pow_add (hi n lo j : Nat) (hlo : lo < 2 ^ n) :
    (hi * 2 ^ n + lo).testBit j =
      if j < n then lo.testBit j else hi.testBit (j - n) := by
  rcases Nat.lt_or_ge j n with hj | hj
  · rw [if_pos hj]
    have h2 : (hi * 2 ^ n + lo) % 2 ^ n = lo := by
      rw [Nat.add_comm, Nat.add_mul_mod_self_right, Nat.mod_eq_of_lt hlo]
    have h1 := Nat.testBit_mod_two_pow (hi * 2 ^ n + lo) n j
    rw [h2, decide_eq_true hj, Bool.true_and] at h1
    exact h1.symm
  · rw [if_neg (Nat.not_lt.mpr hj)]
    have hdiv : (hi * 2 ^ n + lo) / 2 ^ n = hi := by
      rw [Nat.mul_comm hi, Nat.mul_add_div (Nat.pos_pow_of_pos n (by norm_num)),
        Nat.div_eq_of_lt hlo, Nat.add_zero]
    have h3 : (hi * 2 ^ n + lo).testBit (n + (j - n)) = ((hi * 2 ^ n + lo) >>> n).testBit (j - n) :=
      (Nat.testBit_shiftRight _).symm
    rw [Nat.shiftRight_eq_div_pow, hdiv] at h3
    have : n + (j - n) = j := by omega
    rw [this] at h3
    exact h3

/-- Bits of the mask (1 <<< n) - 1: all positions below n. -/
theorem testBit_shl_one_sub_one (n j : Nat) : ((1 <<< n) - 1).testBit j = decide (j < n) := by
  rw [Nat.shiftLeft_eq, Nat.one_mul, Nat.testBit_two_pow_sub_one]

/-- Bits of the complement mask allOnes64 - ((1 <<< b) - 1) = 2^64 - 2^b:
positions b..63. -/
theorem testBit_allOnes64_sub_mask (b j : Nat) (hb : b ≤ 64) :
    (allOnes64 - ((1 <<< b) - 1)).testBit j = (decide (b ≤ j) && decide (j < 64)) := by
  have hpow : (2 : Nat) ^ b ≤ 2 ^ 64 := Nat.pow_le_pow_right (by norm_num) hb
  have hval : allOnes64 - ((1 <<< b) - 1) = (2 ^ (64 - b) - 1) * 2 ^ b + 0 := by
    have e1 : (1 <<< b) = 2 ^ b := by rw [Nat.shiftLeft_eq, Nat.one_mul]
    have e2 : (2 : Nat) ^ (64 - b) * 2 ^ b = 2 ^ 64 := by
      rw [← Nat.pow_add]
      congr 1
      omega
    have h4 : (0 : Nat) < 2 ^ b := Nat.pos_pow_of_pos _ (by norm_num)
    rw [e1, Nat.add_zero, Nat.sub_mul, Nat.one_mul, e2]
    simp only [allOnes64]
    omega
  rw [hval, testBit_mul_pow_add _ _ _ _ (Nat.pos_pow_of_pos b (by norm_num))]
  rcases Nat.lt_or_ge j b with hj | hj
  · rw [if_pos hj]
    simp [Nat.zero_testBit, Nat.not_le.mpr hj]
  · rw [if_neg (Nat.not_lt.mpr hj), Nat.testBit_two_pow_sub_one]
    rw [decide_eq_true hj, Bool.true_and]
    simp only [decide_eq_decide]
    omega

/-- Bits of the single-bit complement mask allOnes64 - (1 <<< b): every
position below 64 except b. -/
theorem testBit_allOnes64_sub_bit (b j : Nat) (hb : b < 64) :
    (allOnes64 - (1 <<< b)).testBit j = (decide (j ≠ b) && decide (j < 64)) := by
  have hval : allOnes64 - (1 <<< b) = (2 ^ (64 - (b + 1)) - 1) * 2 ^ (b + 1) + (2 ^ b - 1) := by
    have e1 : (1 <<< b) = 2 ^ b := by rw [Nat.shiftLeft_eq, Nat.one_mul]
    have e2 : (2 : Nat) ^ (64 - (b + 1)) * 2 ^ (b + 1) = 2 ^ 64 := by
      rw [← Nat.pow_add]
      congr 1
      omega
    have h2 : (2 : Nat) ^ (b + 1) ≤ 2 ^ 64 := Nat.pow_le_pow_right (by norm_num) (by omega)
    have h4 : (0 : Nat) < 2 ^ b := Nat.pos_pow_of_pos b (by norm_num)
    have h5 : (2 : Nat) ^ (b + 1) = 2 ^ b * 2 := by rw [Nat.pow_succ]
    rw [e1, Nat.sub_mul, Nat.one_mul, e2]
    simp only [allOnes64]
    omega
  rw [hval, testBit_mul_pow_add _ _ _ _
    (by
      have h5 : (2 : Nat) ^ (b + 1) = 2 ^ b * 2 := by rw [Nat.pow_succ]
      have h4 : (0 : Nat) < 2 ^ b := Nat.pos_pow_of_pos b (by norm_num)
      omega)]
  rcases Nat.lt_or_ge j (b + 1) with hj | hj
  · rw [if_pos hj, Nat.testBit_two_pow_sub_one]
    rcases Nat.lt_or_ge j b with hj2 | hj2
    · rw [decide_eq_true hj2, decide_eq_true (by omega : j ≠ b), decide_eq_true (by omega : j < 64)]
      rfl
    · have hjb : j = b := by omega
      subst hjb
      simp
  · rw [if_neg (Nat.not_lt.mpr hj), Nat.testBit_two_pow_sub_one]
    have hne : (decide (j ≠ b)) = true := decide_eq_true (by omega)
    rw [hne, Bool.true_and]
    simp only [decide_eq_decide]
    omega

/-- The w &&& m == m test succeeds exactly when w has every bit of m. -/
theorem land_beq_iff (w m : Nat) :
    (w &&& m == m) = true ↔ ∀ j, m.testBit j = true → w.testBit j = true := by
  rw [beq_iff_eq]
  constructor
  · intro h j hj
    have := congrArg (fun x => x.testBit j) h
    simp only [Nat.testBit_land, hj, Bool.and_true] at this
    exact this
  · intro h
    apply Nat.eq_of_testBit_eq
    intro j
    rcases hj : m.testBit j with _ | _
    · simp [Nat.testBit_land, hj]
    · simp [Nat.testBit_land, hj, h j hj]

/-- Nonzero words have a set bit. -/
theorem exists_testBit_of_ne_zero {w : Nat} (h : w ≠ 0) : ∃ j, w.testBit j = true := by
  by_contra hall
  push_neg at hall
  exact h (Nat.zero_of_testBit_eq_false fun i => by
    have := hall i
    revert this
    rcases w.testBit i with _ | _ <;> simp)

/-- A bit test against a single-bit mask is testBit. -/
theorem land_single_bit (w b : Nat) : (w &&& 1 <<< b != 0) = w.testBit b := by
  rcases h : w.testBit b with _ | _ <;>
    simp [Nat.shiftLeft_eq, Nat.one_mul, Nat.and_two_pow, h]

/-- is_set in terms of the word and the bit position. -/
theorem is_set_eq_testBit (bitmap : List Nat) (idx : Nat) :
    is_set bitmap idx = (bitWord bitmap (idx / 64)).testBit (idx % 64) := by
  simp only [is_set, bitsPerArrayElement]
  exact land_single_bit _ _



theorem allSetIn_iff_word (bitmap : List Nat) (start count : Nat)
    (hcount : count ≤ 64 - start % 64) :
    AllSetIn bitmap start count ↔
      ∀ d, d < count → (bitWord bitmap (start / 64)).testBit (start % 64 + d) = true := by
  unfold AllSetIn
  constructor
  · intro h d hd
    have := h d hd
    rw [is_set_eq_testBit] at this
    have e1 : (start + d) / 64 = start / 64 := by omega
    have e2 : (start + d) % 64 = start % 64 + d := by omega
    rwa [e1, e2] at this
  · intro h d hd
    rw [is_set_eq_testBit]
    have e1 : (start + d) / 64 = start / 64 := by omega
    have e2 : (start + d) % 64 = start % 64 + d := by omega
    rw [e1, e2]
    exact h d hd

theorem allSetIn_split (bitmap : List Nat) (start count k : Nat) (hk : k ≤ count) :
    AllSetIn bitmap start count ↔
      AllSetIn bitmap start k ∧ AllSetIn bitmap (start + k) (count - k) := by
  unfold AllSetIn
  constructor
  · intro h
    refine ⟨fun j hj => h j (by omega), fun j hj => ?_⟩
    have hh := h (k + j) (by omega)
    have e : start + (k + j) = start + k + j := by omega
    rwa [e] at hh
  · intro ⟨h1, h2⟩ j hj
    rcases Nat.lt_or_ge j k with hjk | hjk
    · exact h1 j hjk
    · have hh := h2 (j - k) (by omega)
      have e : start + k + (j - k) = start + j := by omega
      rwa [e] at hh

theorem is_forward_consecutive_ones_loop_spec (bitmap : List Nat) :
    ∀ fuel start_idx count, count < fuel →
      (is_forward_consecutive_ones_loop bitmap fuel start_idx count = true ↔
        AllSetIn bitmap start_idx count) := by
  intro fuel
  induction fuel with
  | zero => intro s c h; omega
  | succ fuel ih =>
    intro start_idx count hcount
    have hb : start_idx % 64 < 64 := Nat.mod_lt _ (by norm_num)
    rw [is_forward_consecutive_ones_loop]
    simp only [bitsPerArrayElement]
    split
    · rename_i hle
      -- all relevant bits within this word
      rw [allSetIn_iff_word bitmap start_idx count (by omega)]
      rw [land_beq_iff]
      constructor
      · intro h d hd
        apply h
        rw [Nat.testBit_land, testBit_shl_one_sub_one,
          testBit_allOnes64_sub_mask _ _ (by omega)]
        have e1 : (decide (start_idx % 64 + d < start_idx % 64 + count)) = true :=
          decide_eq_true (by omega)
        have e2 : (decide (start_idx % 64 ≤ start_idx % 64 + d)) = true :=
          decide_eq_true (by omega)
        have e3 : (decide (start_idx % 64 + d < 64)) = true := decide_eq_true (by omega)
        rw [e1, e2, e3]
        rfl
      · intro h j hj
        rw [Nat.testBit_land, testBit_shl_one_sub_one,
          testBit_allOnes64_sub_mask _ _ (by omega)] at hj
        simp only [Bool.and_eq_true, decide_eq_true_eq] at hj
        obtain ⟨hj1, hj2, _⟩ := hj
        have := h (j - start_idx % 64) (by omega)
        have e : start_idx % 64 + (j - start_idx % 64) = j := by omega
        rwa [e] at this
    · rename_i hgt
      -- spans more than this word
      split
      · rename_i htest
        rw [ih (start_idx + (64 - start_idx % 64)) (count - (64 - start_idx % 64)) (by omega)]
        rw [allSetIn_split bitmap start_idx count (64 - start_idx % 64) (by omega)]
        have hfirst : AllSetIn bitmap start_idx (64 - start_idx % 64) := by
          rw [allSetIn_iff_word bitmap start_idx _ (by omega)]
          intro d hd
          rw [land_beq_iff] at htest
          apply htest
          rw [Nat.testBit_land, testBit_allOnes64_sub_mask _ _ (by omega)]
          have e2 : (decide (start_idx % 64 ≤ start_idx % 64 + d)) = true :=
            decide_eq_true (by omega)
          have e3 : (decide (start_idx % 64 + d < 64)) = true := decide_eq_true (by omega)
          have e4 : allOnes64.testBit (start_idx % 64 + d) = true := by
            simp only [allOnes64]
            rw [Nat.testBit_two_pow_sub_one]
            exact decide_eq_true (by omega)
          rw [e2, e3, e4]
          rfl
        constructor
        · intro h
          exact ⟨hfirst, h⟩
        · intro ⟨_, h⟩
          exact h
      · rename_i htest
        refine iff_of_false (by simp) ?_
        intro hall
        apply htest
        rw [land_beq_iff]
        intro j hj
        rw [Nat.testBit_land, testBit_allOnes64_sub_mask _ _ (by omega)] at hj
        simp only [allOnes64, Nat.testBit_two_pow_sub_one, Bool.and_eq_true,
          decide_eq_true_eq] at hj
        obtain ⟨hj0, hj1, hj2⟩ := hj
        have hpre : AllSetIn bitmap start_idx (64 - start_idx % 64) :=
          ((allSetIn_split bitmap start_idx count (64 - start_idx % 64) (by omega)).mp hall).1
        rw [allSetIn_iff_word bitmap start_idx (64 - start_idx % 64) (by omega)] at hpre
        have hh := hpre (j - start_idx % 64) (by omega)
        have e : start_idx % 64 + (j - start_idx % 64) = j := by omega
        rwa [e] at hh

theorem is_forward_consecutive_ones_spec (bitmap : List Nat) (start_idx count : Nat) :
    is_forward_consecutive_ones bitmap start_idx count = true ↔
      AllSetIn bitmap start_idx count :=
  is_forward_consecutive_ones_loop_spec bitmap (count + 1) start_idx count (Nat.lt_succ_self _)



theorem is_set_word (bitmap : List Nat) (a c : Nat) (hc : c < 64) :
    is_set bitmap (64 * a + c) = (bitWord bitmap a).testBit c := by
  rw [is_set_eq_testBit]
  have e1 : (64 * a + c) / 64 = a := by omega
  have e2 : (64 * a + c) % 64 = c := by omega
  rw [e1, e2]

theorem count_ones_downward_spec (w b : Nat) (hex : ∃ j, j ≤ b ∧ w.testBit j = false) :
    count_ones_downward w b ≤ b ∧
      (∀ j, b - count_ones_downward w b < j → j ≤ b → w.testBit j = true) ∧
      w.testBit (b - count_ones_downward w b) = false := by
  induction b with
  | zero =>
    obtain ⟨j, hj, hjf⟩ := hex
    interval_cases j
    rw [count_ones_downward]
    have h1 : (w &&& 1 != 0) = w.testBit 0 := by
      have := land_single_bit w 0
      simpa using this
    rw [h1, hjf]
    simp only [Bool.false_eq_true, if_false]
    exact ⟨Nat.le_refl 0, fun j hj1 hj2 => by omega, by simpa using hjf⟩
  | succ b ih =>
    rw [count_ones_downward]
    rw [land_single_bit]
    rcases htop : w.testBit (b + 1) with _ | _
    · simp only [Bool.false_eq_true, if_false]
      refine ⟨by omega, fun j hj1 hj2 => by omega, ?_⟩
      simpa using htop
    · simp only [if_true]
      have hex2 : ∃ j, j ≤ b ∧ w.testBit j = false := by
        obtain ⟨j, hj, hjf⟩ := hex
        refine ⟨j, ?_, hjf⟩
        rcases Nat.lt_or_ge j (b + 1) with h | h
        · omega
        · have : j = b + 1 := by omega
          rw [this, htop] at hjf
          exact absurd hjf (by simp)
      obtain ⟨iht, ihint, ihf⟩ := ih hex2
      refine ⟨by omega, ?_, ?_⟩
      · intro j hj1 hj2
        rcases Nat.lt_or_ge j (b + 1) with h | h
        · exact ihint j (by omega) (by omega)
        · have : j = b + 1 := by omega
          rw [this, htop]
      · have e : b + 1 - (1 + count_ones_downward w b) = b - count_ones_downward w b := by omega
        rw [e]
        exact ihf

theorem mask_le_testBit (b j : Nat) : ((1 <<< b) * 2 - 1).testBit j = decide (j ≤ b) := by
  have e : (1 <<< b) * 2 - 1 = (1 <<< (b + 1)) - 1 := by
    rw [Nat.shiftLeft_eq, Nat.shiftLeft_eq, Nat.one_mul, Nat.one_mul, Nat.pow_succ]
  rw [e, testBit_shl_one_sub_one]
  simp only [decide_eq_decide]
  omega

theorem count_trailing_ones_loop_spec (bitmap : List Nat) :
    ∀ fuel last_idx z, last_idx / 64 < fuel → z ≤ last_idx → is_set bitmap z = false →
      count_trailing_ones_loop bitmap fuel last_idx ≤ last_idx - z ∧
        (∀ j, last_idx - count_trailing_ones_loop bitmap fuel last_idx < j → j ≤ last_idx →
          is_set bitmap j = true) ∧
        is_set bitmap (last_idx - count_trailing_ones_loop bitmap fuel last_idx) = false := by
  intro fuel
  induction fuel with
  | zero => intro last_idx z h; omega
  | succ fuel ih =>
    intro last_idx z hfuel hz hzf
    have hb : last_idx % 64 < 64 := Nat.mod_lt _ (by norm_num)
    have hsplit : 64 * (last_idx / 64) + last_idx % 64 = last_idx := Nat.div_add_mod _ _
    rw [count_trailing_ones_loop]
    simp only [bitsPerArrayElement]
    split
    · rename_i htest
      -- mask over bits 0..bit_number passes: the whole word tail is ones
      rw [land_beq_iff] at htest
      have hword : ∀ c, c ≤ last_idx % 64 → (bitWord bitmap (last_idx / 64)).testBit c = true := by
        intro c hc
        apply htest
        rw [mask_le_testBit]
        exact decide_eq_true hc
      have hwindow : ∀ j, last_idx - last_idx % 64 ≤ j → j ≤ last_idx → is_set bitmap j = true := by
        intro j hj1 hj2
        have e : j = 64 * (last_idx / 64) + (j - (last_idx - last_idx % 64)) := by omega
        rw [e, is_set_word _ _ _ (by omega)]
        exact hword _ (by omega)
      split
      · rename_i hrec
        -- counted_ones <= last_idx: recurse into the previous word
        have hzlow : z < last_idx - last_idx % 64 := by
          by_contra hcon
          push_neg at hcon
          rw [hwindow z hcon hz] at hzf
          exact absurd hzf (by simp)
        have ha1 : 1 ≤ last_idx / 64 := by omega
        have harg : (last_idx - (last_idx % 64 + 1)) / 64 < fuel := by
          have : last_idx - (last_idx % 64 + 1) = 64 * (last_idx / 64) - 1 := by omega
          rw [this]
          omega
        obtain ⟨iht, ihint, ihf⟩ := ih (last_idx - (last_idx % 64 + 1)) z harg (by omega) hzf
        set t' := count_trailing_ones_loop bitmap fuel (last_idx - (last_idx % 64 + 1)) with ht'
        refine ⟨by omega, ?_, ?_⟩
        · intro j hj1 hj2
          rcases Nat.lt_or_ge (last_idx - (last_idx % 64 + 1)) j with h | h
          · exact hwindow j (by omega) hj2
          · exact ihint j (by omega) h
        · have e : last_idx - (last_idx % 64 + 1 + t') = last_idx - (last_idx % 64 + 1) - t' := by
            omega
          rw [e]
          exact ihf
      · rename_i hrec
        -- counted_ones > last_idx: the whole bitmap below last_idx is ones, contradicting z
        exfalso
        have : last_idx - last_idx % 64 ≤ z := by omega
        rw [hwindow z this hz] at hzf
        exact absurd hzf (by simp)
    · rename_i htest
      -- a zero inside this word below bit_number
      have hex : ∃ j, j ≤ last_idx % 64 ∧ (bitWord bitmap (last_idx / 64)).testBit j = false := by
        by_contra hcon
        push_neg at hcon
        apply htest
        rw [land_beq_iff]
        intro j hj
        rw [mask_le_testBit, decide_eq_true_eq] at hj
        have := hcon j hj
        rcases hx : (bitWord bitmap (last_idx / 64)).testBit j with _ | _
        · exact absurd hx this
        · rfl
      obtain ⟨ct, cint, cf⟩ := count_ones_downward_spec _ _ hex
      set t := count_ones_downward (bitWord bitmap (last_idx / 64)) (last_idx % 64) with htdef
      refine ⟨?_, ?_, ?_⟩
      · -- t ≤ last_idx - z
        rcases Nat.lt_or_ge z (last_idx - last_idx % 64) with h | h
        · omega
        · have e : z = 64 * (last_idx / 64) + (z - (last_idx - last_idx % 64)) := by omega
          rw [e, is_set_word _ _ _ (by omega)] at hzf
          have hzb : z - (last_idx - last_idx % 64) ≤ last_idx % 64 - t := by
            by_contra hcon
            push_neg at hcon
            have := cint (z - (last_idx - last_idx % 64)) (by omega) (by omega)
            rw [this] at hzf
            exact absurd hzf (by simp)
          omega
      · intro j hj1 hj2
        have e : j = 64 * (last_idx / 64) + (j - (last_idx - last_idx % 64)) := by omega
        rw [e, is_set_word _ _ _ (by omega)]
        exact cint _ (by omega) (by omega)
      · have e : last_idx - t = 64 * (last_idx / 64) + (last_idx % 64 - t) := by omega
        rw [e, is_set_word _ _ _ (by omega)]
        exact cf

theorem count_trailing_ones_spec (bitmap : List Nat) (last_idx z : Nat)
    (hz : z ≤ last_idx) (hzf : is_set bitmap z = false) :
    count_trailing_ones bitmap last_idx ≤ last_idx - z ∧
      (∀ j, last_idx - count_trailing_ones bitmap last_idx < j → j ≤ last_idx →
        is_set bitmap j = true) ∧
      is_set bitmap (last_idx - count_trailing_ones bitmap last_idx) = false := by
  unfold count_trailing_ones
  simp only [bitsPerArrayElement]
  exact count_trailing_ones_loop_spec bitmap (last_idx / 64 + 1) last_idx z (by omega) hz hzf



theorem maskedWordFrom_zero (bitmap : List Nat) (s : Nat) (h : maskedWordFrom bitmap s = 0) :
    ∀ d, d < 64 - s % 64 → is_set bitmap (s + d) = false := by
  intro d hd
  have e1 : (s + d) / 64 = s / 64 := by omega
  have e2 : (s + d) % 64 = s % 64 + d := by omega
  rw [is_set_eq_testBit, e1, e2]
  unfold maskedWordFrom at h
  simp only [bitsPerArrayElement] at h
  by_contra hcon
  rcases hx : (bitWord bitmap (s / 64)).testBit (s % 64 + d) with _ | _
  · exact hcon hx
  · split at h
    · rename_i hb
      have := congrArg (fun x => x.testBit (s % 64 + d)) h
      simp only [Nat.testBit_land, Nat.zero_testBit] at this
      rw [hx, testBit_allOnes64_sub_mask _ _ (by omega)] at this
      rw [decide_eq_true (by omega : s % 64 ≤ s % 64 + d),
        decide_eq_true (by omega : s % 64 + d < 64)] at this
      simp at this
    · rename_i hb
      rw [h] at hx
      simp [Nat.zero_testBit] at hx

theorem find_next_consecutive_bits_loop_spec (bitmap : List Nat) (num_bits boundary_idx : Nat)
    (hk : 1 ≤ num_bits) :
    ∀ fuel start_idx, boundary_idx + 1 ≤ fuel + start_idx + num_bits →
      (find_next_consecutive_bits_loop bitmap num_bits boundary_idx fuel start_idx = boundary_idx ∧
        ∀ i, start_idx ≤ i → i + num_bits ≤ boundary_idx → ¬AllSetIn bitmap i num_bits) ∨
      (start_idx ≤ find_next_consecutive_bits_loop bitmap num_bits boundary_idx fuel start_idx ∧
        find_next_consecutive_bits_loop bitmap num_bits boundary_idx fuel start_idx + num_bits ≤ boundary_idx ∧
        AllSetIn bitmap (find_next_consecutive_bits_loop bitmap num_bits boundary_idx fuel start_idx) num_bits ∧
        ∀ i, start_idx ≤ i → i < find_next_consecutive_bits_loop bitmap num_bits boundary_idx fuel start_idx →
          ¬AllSetIn bitmap i num_bits) := by
  intro fuel
  induction fuel with
  | zero =>
    intro start_idx hfuel
    rw [find_next_consecutive_bits_loop]
    exact Or.inl ⟨rfl, fun i hi1 hi2 => by omega⟩
  | succ fuel ih =>
    intro start_idx hfuel
    rw [find_next_consecutive_bits_loop]
    simp only [bitsPerArrayElement]
    split
    · rename_i hguard
      split
      · rename_i hzero
        -- the masked word is zero: every window starting in it fails on its first bit
        have hprefix : ∀ i, start_idx ≤ i → i < start_idx + (64 - start_idx % 64) →
            ¬AllSetIn bitmap i num_bits := by
          intro i hi1 hi2 hall
          have h0 := hall 0 (by omega)
          have e : i = start_idx + (i - start_idx) := by omega
          rw [Nat.add_zero, e] at h0
          rw [maskedWordFrom_zero bitmap start_idx hzero (i - start_idx) (by omega)] at h0
          exact absurd h0 (by simp)
        have hidx : start_idx % 64 < 64 := Nat.mod_lt _ (by norm_num)
        rcases ih (start_idx + (64 - start_idx % 64)) (by omega) with ⟨hres, hfail⟩ | ⟨h1, h2, h3, h4⟩
        · refine Or.inl ⟨hres, fun i hi1 hi2 hall => ?_⟩
          rcases Nat.lt_or_ge i (start_idx + (64 - start_idx % 64)) with h | h
          · exact hprefix i hi1 h hall
          · exact hfail i h hi2 hall
        · refine Or.inr ⟨by omega, h2, h3, fun i hi1 hi2 hall => ?_⟩
          rcases Nat.lt_or_ge i (start_idx + (64 - start_idx % 64)) with h | h
          · exact hprefix i hi1 h hall
          · exact h4 i h hi2 hall
      · split
        · rename_i hfound
          exact Or.inr ⟨Nat.le_refl _, hguard,
            (is_forward_consecutive_ones_spec bitmap start_idx num_bits).mp hfound,
            fun i hi1 hi2 => by omega⟩
        · rename_i hnotrun
          have hnall : ¬AllSetIn bitmap start_idx num_bits := by
            intro hall
            exact hnotrun ((is_forward_consecutive_ones_spec bitmap start_idx num_bits).mpr hall)
          have hexz : ∃ d, d < num_bits ∧ is_set bitmap (start_idx + d) = false := by
            by_contra hcon
            push_neg at hcon
            apply hnall
            intro j hj
            have := hcon j hj
            rcases hx : is_set bitmap (start_idx + j) with _ | _
            · exact absurd hx this
            · rfl
          obtain ⟨d, hd, hdf⟩ := hexz
          obtain ⟨ct, cint, cf⟩ := count_trailing_ones_spec bitmap (start_idx + num_bits - 1)
            (start_idx + d) (by omega) hdf
          set t := count_trailing_ones bitmap (start_idx + num_bits - 1) with htdef
          have htk : t < num_bits := by omega
          have hprefix : ∀ i, start_idx ≤ i → i < start_idx + (num_bits - t) →
              ¬AllSetIn bitmap i num_bits := by
            intro i hi1 hi2 hall
            have hp := hall (start_idx + num_bits - 1 - t - i) (by omega)
            have e : i + (start_idx + num_bits - 1 - t - i) = start_idx + num_bits - 1 - t := by
              omega
            rw [e] at hp
            rw [cf] at hp
            exact absurd hp (by simp)
          rcases ih (start_idx + (num_bits - t)) (by omega) with ⟨hres, hfail⟩ | ⟨h1, h2, h3, h4⟩
          · refine Or.inl ⟨hres, fun i hi1 hi2 hall => ?_⟩
            rcases Nat.lt_or_ge i (start_idx + (num_bits - t)) with h | h
            · exact hprefix i hi1 h hall
            · exact hfail i h hi2 hall
          · refine Or.inr ⟨by omega, h2, h3, fun i hi1 hi2 hall => ?_⟩
            rcases Nat.lt_or_ge i (start_idx + (num_bits - t)) with h | h
            · exact hprefix i hi1 h hall
            · exact h4 i h hi2 hall
    · rename_i hguard
      exact Or.inl ⟨rfl, fun i hi1 hi2 => by omega⟩

theorem find_next_consecutive_bits_spec (bitmap : List Nat) (num_bits start_idx boundary_idx : Nat)
    (hk : 1 ≤ num_bits) :
    (find_next_consecutive_bits bitmap num_bits start_idx boundary_idx = boundary_idx ∧
      ∀ i, start_idx ≤ i → i + num_bits ≤ boundary_idx → ¬AllSetIn bitmap i num_bits) ∨
    (start_idx ≤ find_next_consecutive_bits bitmap num_bits start_idx boundary_idx ∧
      find_next_consecutive_bits bitmap num_bits start_idx boundary_idx + num_bits ≤ boundary_idx ∧
      AllSetIn bitmap (find_next_consecutive_bits bitmap num_bits start_idx boundary_idx) num_bits ∧
      ∀ i, start_idx ≤ i → i < find_next_consecutive_bits bitmap num_bits start_idx boundary_idx →
        ¬AllSetIn bitmap i num_bits) := by
  unfold find_next_consecutive_bits
  exact find_next_consecutive_bits_loop_spec bitmap num_bits boundary_idx hk
    (boundary_idx + 1) start_idx (by omega)



theorem PerPartition.get_set_same {α : Type} (f : PerPartition α) (p : PartitionId) (v : α) :
    (f.set p v).get p = v := by
  cases p <;> rfl

theorem PerPartition.get_set_ne {α : Type} (f : PerPartition α) (p q : PartitionId) (v : α)
    (h : q ≠ p) : (f.set p v).get q = f.get q := by
  cases p <;> cases q <;> first | rfl | exact absurd rfl h

theorem PerPartition.set_get {α : Type} (f : PerPartition α) (p : PartitionId) :
    f.set p (f.get p) = f := by
  cases p <;> rfl

theorem leftmost_empty_loop_frame (cap : Nat → Nat) (p : PartitionId) :
    ∀ fuel s idx,
      ((leftmost_empty_loop cap p fuel s idx).2).max = s.max ∧
      ((leftmost_empty_loop cap p fuel s idx).2).region_size_bytes = s.region_size_bytes ∧
      ((leftmost_empty_loop cap p fuel s idx).2).membership = s.membership ∧
      ((leftmost_empty_loop cap p fuel s idx).2).leftmosts = s.leftmosts ∧
      ((leftmost_empty_loop cap p fuel s idx).2).rightmosts = s.rightmosts ∧
      ((leftmost_empty_loop cap p fuel s idx).2).capacity = s.capacity ∧
      ((leftmost_empty_loop cap p fuel s idx).2).used = s.used ∧
      ((leftmost_empty_loop cap p fuel s idx).2).region_counts = s.region_counts := by
  intro fuel
  induction fuel with
  | zero =>
    intro s idx
    exact ⟨rfl, rfl, rfl, rfl, rfl, rfl, rfl, rfl⟩
  | succ fuel ih =>
    intro s idx
    rw [leftmost_empty_loop]
    split
    · split
      · exact ⟨rfl, rfl, rfl, rfl, rfl, rfl, rfl, rfl⟩
      · exact ih s _
    · exact ⟨rfl, rfl, rfl, rfl, rfl, rfl, rfl, rfl⟩

theorem rightmost_empty_loop_frame (cap : Nat → Nat) (p : PartitionId) :
    ∀ fuel s idx,
      ((rightmost_empty_loop cap p fuel s idx).2).max = s.max ∧
      ((rightmost_empty_loop cap p fuel s idx).2).region_size_bytes = s.region_size_bytes ∧
      ((rightmost_empty_loop cap p fuel s idx).2).membership = s.membership ∧
      ((rightmost_empty_loop cap p fuel s idx).2).leftmosts = s.leftmosts ∧
      ((rightmost_empty_loop cap p fuel s idx).2).rightmosts = s.rightmosts ∧
      ((rightmost_empty_loop cap p fuel s idx).2).capacity = s.capacity ∧
      ((rightmost_empty_loop cap p fuel s idx).2).used = s.used ∧
      ((rightmost_empty_loop cap p fuel s idx).2).region_counts = s.region_counts := by
  intro fuel
  induction fuel with
  | zero =>
    intro s idx
    exact ⟨rfl, rfl, rfl, rfl, rfl, rfl, rfl, rfl⟩
  | succ fuel ih =>
    intro s idx
    rw [rightmost_empty_loop]
    split
    · split
      · exact ⟨rfl, rfl, rfl, rfl, rfl, rfl, rfl, rfl⟩
      · exact ih s _
    · exact ⟨rfl, rfl, rfl, rfl, rfl, rfl, rfl, rfl⟩

theorem leftmost_empty_max (cap : Nat → Nat) (s : RegionPartitions) (p : PartitionId) :
    (leftmost_empty cap s p).2.max = s.max := by
  unfold leftmost_empty
  split
  · rfl
  · exact (leftmost_empty_loop_frame cap p _ s _).1

theorem rightmost_empty_max (cap : Nat → Nat) (s : RegionPartitions) (p : PartitionId) :
    (rightmost_empty cap s p).2.max = s.max := by
  unfold rightmost_empty
  split
  · rfl
  · exact (rightmost_empty_loop_frame cap p _ s _).1

theorem leftmost_empty_region_size_bytes (cap : Nat → Nat) (s : RegionPartitions) (p : PartitionId) :
    (leftmost_empty cap s p).2.region_size_bytes = s.region_size_bytes := by
  unfold leftmost_empty
  split
  · rfl
  · exact (leftmost_empty_loop_frame cap p _ s _).2.1

theorem rightmost_empty_region_size_bytes (cap : Nat → Nat) (s : RegionPartitions) (p : PartitionId) :
    (rightmost_empty cap s p).2.region_size_bytes = s.region_size_bytes := by
  unfold rightmost_empty
  split
  · rfl
  · exact (rightmost_empty_loop_frame cap p _ s _).2.1

theorem leftmost_empty_membership (cap : Nat → Nat) (s : RegionPartitions) (p : PartitionId) :
    (leftmost_empty cap s p).2.membership = s.membership := by
  unfold leftmost_empty
  split
  · rfl
  · exact (leftmost_empty_loop_frame cap p _ s _).2.2.1

theorem rightmost_empty_membership (cap : Nat → Nat) (s : RegionPartitions) (p : PartitionId) :
    (rightmost_empty cap s p).2.membership = s.membership := by
  unfold rightmost_empty
  split
  · rfl
  · exact (rightmost_empty_loop_frame cap p _ s _).2.2.1

theorem leftmost_empty_leftmosts (cap : Nat → Nat) (s : RegionPartitions) (p : PartitionId) :
    (leftmost_empty cap s p).2.leftmosts = s.leftmosts := by
  unfold leftmost_empty
  split
  · rfl
  · exact (leftmost_empty_loop_frame cap p _ s _).2.2.2.1

theorem rightmost_empty_leftmosts (cap : Nat → Nat) (s : RegionPartitions) (p : PartitionId) :
    (rightmost_empty cap s p).2.leftmosts = s.leftmosts := by
  unfold rightmost_empty
  split
  · rfl
  · exact (rightmost_empty_loop_frame cap p _ s _).2.2.2.1

theorem leftmost_empty_rightmosts (cap : Nat → Nat) (s : RegionPartitions) (p : PartitionId) :
    (leftmost_empty cap s p).2.rightmosts = s.rightmosts := by
  unfold leftmost_empty
  split
  · rfl
  · exact (leftmost_empty_loop_frame cap p _ s _).2.2.2.2.1

theorem rightmost_empty_rightmosts (cap : Nat → Nat) (s : RegionPartitions) (p : PartitionId) :
    (rightmost_empty cap s p).2.rightmosts = s.rightmosts := by
  unfold rightmost_empty
  split
  · rfl
  · exact (rightmost_empty_loop_frame cap p _ s _).2.2.2.2.1

theorem leftmost_empty_capacity (cap : Nat → Nat) (s : RegionPartitions) (p : PartitionId) :
    (leftmost_empty cap s p).2.capacity = s.capacity := by
  unfold leftmost_empty
  split
  · rfl
  · exact (leftmost_empty_loop_frame cap p _ s _).2.2.2.2.2.1

theorem rightmost_empty_capacity (cap : Nat → Nat) (s : RegionPartitions) (p : PartitionId) :
    (rightmost_empty cap s p).2.capacity = s.capacity := by
  unfold rightmost_empty
  split
  · rfl
  · exact (rightmost_empty_loop_frame cap p _ s _).2.2.2.2.2.1

theorem leftmost_empty_used (cap : Nat → Nat) (s : RegionPartitions) (p : PartitionId) :
    (leftmost_empty cap s p).2.used = s.used := by
  unfold leftmost_empty
  split
  · rfl
  · exact (leftmost_empty_loop_frame cap p _ s _).2.2.2.2.2.2.1

theorem rightmost_empty_used (cap : Nat → Nat) (s : RegionPartitions) (p : PartitionId) :
    (rightmost_empty cap s p).2.used = s.used := by
  unfold rightmost_empty
  split
  · rfl
  · exact (rightmost_empty_loop_frame cap p _ s _).2.2.2.2.2.2.1

theorem leftmost_empty_region_counts (cap : Nat → Nat) (s : RegionPartitions) (p : PartitionId) :
    (leftmost_empty cap s p).2.region_counts = s.region_counts := by
  unfold leftmost_empty
  split
  · rfl
  · exact (leftmost_empty_loop_frame cap p _ s _).2.2.2.2.2.2.2

theorem rightmost_empty_region_counts (cap : Nat → Nat) (s : RegionPartitions) (p : PartitionId) :
    (rightmost_empty cap s p).2.region_counts = s.region_counts := by
  unfold rightmost_empty
  split
  · rfl
  · exact (rightmost_empty_loop_frame cap p _ s _).2.2.2.2.2.2.2



theorem shrink_store_leftmost_max (cap : Nat → Nat) (s : RegionPartitions) (p : PartitionId) (v : Int) :
    (shrink_store_leftmost cap s p v).max = s.max := by
  unfold shrink_store_leftmost
  try simp only []
  repeat' split
  all_goals simp [leftmost_empty_max, rightmost_empty_max]

theorem shrink_store_leftmost_region_size_bytes (cap : Nat → Nat) (s : RegionPartitions) (p : PartitionId) (v : Int) :
    (shrink_store_leftmost cap s p v).region_size_bytes = s.region_size_bytes := by
  unfold shrink_store_leftmost
  try simp only []
  repeat' split
  all_goals simp [leftmost_empty_region_size_bytes, rightmost_empty_region_size_bytes]

theorem shrink_store_leftmost_membership (cap : Nat → Nat) (s : RegionPartitions) (p : PartitionId) (v : Int) :
    (shrink_store_leftmost cap s p v).membership = s.membership := by
  unfold shrink_store_leftmost
  try simp only []
  repeat' split
  all_goals simp [leftmost_empty_membership, rightmost_empty_membership]

theorem shrink_store_leftmost_capacity (cap : Nat → Nat) (s : RegionPartitions) (p : PartitionId) (v : Int) :
    (shrink_store_leftmost cap s p v).capacity = s.capacity := by
  unfold shrink_store_leftmost
  try simp only []
  repeat' split
  all_goals simp [leftmost_empty_capacity, rightmost_empty_capacity]

theorem shrink_store_leftmost_used (cap : Nat → Nat) (s : RegionPartitions) (p : PartitionId) (v : Int) :
    (shrink_store_leftmost cap s p v).used = s.used := by
  unfold shrink_store_leftmost
  try simp only []
  repeat' split
  all_goals simp [leftmost_empty_used, rightmost_empty_used]

theorem shrink_store_leftmost_region_counts (cap : Nat → Nat) (s : RegionPartitions) (p : PartitionId) (v : Int) :
    (shrink_store_leftmost cap s p v).region_counts = s.region_counts := by
  unfold shrink_store_leftmost
  try simp only []
  repeat' split
  all_goals simp [leftmost_empty_region_counts, rightmost_empty_region_counts]

theorem shrink_store_rightmost_max (cap : Nat → Nat) (s : RegionPartitions) (p : PartitionId) (v : Int) :
    (shrink_store_rightmost cap s p v).max = s.max := by
  unfold shrink_store_rightmost
  try simp only []
  repeat' split
  all_goals simp [leftmost_empty_max, rightmost_empty_max]

theorem shrink_store_rightmost_region_size_bytes (cap : Nat → Nat) (s : RegionPartitions) (p : PartitionId) (v : Int) :
    (shrink_store_rightmost cap s p v).region_size_bytes = s.region_size_bytes := by
  unfold shrink_store_rightmost
  try simp only []
  repeat' split
  all_goals simp [leftmost_empty_region_size_bytes, rightmost_empty_region_size_bytes]

theorem shrink_store_rightmost_membership (cap : Nat → Nat) (s : RegionPartitions) (p : PartitionId) (v : Int) :
    (shrink_store_rightmost cap s p v).membership = s.membership := by
  unfold shrink_store_rightmost
  try simp only []
  repeat' split
  all_goals simp [leftmost_empty_membership, rightmost_empty_membership]

theorem shrink_store_rightmost_capacity (cap : Nat → Nat) (s : RegionPartitions) (p : PartitionId) (v : Int) :
    (shrink_store_rightmost cap s p v).capacity = s.capacity := by
  unfold shrink_store_rightmost
  try simp only []
  repeat' split
  all_goals simp [leftmost_empty_capacity, rightmost_empty_capacity]

theorem shrink_store_rightmost_used (cap : Nat → Nat) (s : RegionPartitions) (p : PartitionId) (v : Int) :
    (shrink_store_rightmost cap s p v).used = s.used := by
  unfold shrink_store_rightmost
  try simp only []
  repeat' split
  all_goals simp [leftmost_empty_used, rightmost_empty_used]

theorem shrink_store_rightmost_region_counts (cap : Nat → Nat) (s : RegionPartitions) (p : PartitionId) (v : Int) :
    (shrink_store_rightmost cap s p v).region_counts = s.region_counts := by
  unfold shrink_store_rightmost
  try simp only []
  repeat' split
  all_goals simp [leftmost_empty_region_counts, rightmost_empty_region_counts]

theorem shrink_canonicalize_if_crossed_max (s : RegionPartitions) (p : PartitionId) :
    (shrink_canonicalize_if_crossed s p).max = s.max := by
  unfold shrink_canonicalize_if_crossed
  try simp only []
  repeat' split
  all_goals simp [leftmost_empty_max, rightmost_empty_max]

theorem shrink_canonicalize_if_crossed_region_size_bytes (s : RegionPartitions) (p : PartitionId) :
    (shrink_canonicalize_if_crossed s p).region_size_bytes = s.region_size_bytes := by
  unfold shrink_canonicalize_if_crossed
  try simp only []
  repeat' split
  all_goals simp [leftmost_empty_region_size_bytes, rightmost_empty_region_size_bytes]

theorem shrink_canonicalize_if_crossed_membership (s : RegionPartitions) (p : PartitionId) :
    (shrink_canonicalize_if_crossed s p).membership = s.membership := by
  unfold shrink_canonicalize_if_crossed
  try simp only []
  repeat' split
  all_goals simp [leftmost_empty_membership, rightmost_empty_membership]

theorem shrink_canonicalize_if_crossed_capacity (s : RegionPartitions) (p : PartitionId) :
    (shrink_canonicalize_if_crossed s p).capacity = s.capacity := by
  unfold shrink_canonicalize_if_crossed
  try simp only []
  repeat' split
  all_goals simp [leftmost_empty_capacity, rightmost_empty_capacity]

theorem shrink_canonicalize_if_crossed_used (s : RegionPartitions) (p : PartitionId) :
    (shrink_canonicalize_if_crossed s p).used = s.used := by
  unfold shrink_canonicalize_if_crossed
  try simp only []
  repeat' split
  all_goals simp [leftmost_empty_used, rightmost_empty_used]

theorem shrink_canonicalize_if_crossed_region_counts (s : RegionPartitions) (p : PartitionId) :
    (shrink_canonicalize_if_crossed s p).region_counts = s.region_counts := by
  unfold shrink_canonicalize_if_crossed
  try simp only []
  repeat' split
  all_goals simp [leftmost_empty_region_counts, rightmost_empty_region_counts]

theorem expand_empty_bounds_max (cap : Nat → Nat) (s : RegionPartitions) (p : PartitionId) (v : Int) :
    (expand_empty_bounds cap s p v).max = s.max := by
  unfold expand_empty_bounds
  try simp only []
  repeat' split
  all_goals simp [leftmost_empty_max, rightmost_empty_max]

theorem expand_empty_bounds_region_size_bytes (cap : Nat → Nat) (s : RegionPartitions) (p : PartitionId) (v : Int) :
    (expand_empty_bounds cap s p v).region_size_bytes = s.region_size_bytes := by
  unfold expand_empty_bounds
  try simp only []
  repeat' split
  all_goals simp [leftmost_empty_region_size_bytes, rightmost_empty_region_size_bytes]

theorem expand_empty_bounds_membership (cap : Nat → Nat) (s : RegionPartitions) (p : PartitionId) (v : Int) :
    (expand_empty_bounds cap s p v).membership = s.membership := by
  unfold expand_empty_bounds
  try simp only []
  repeat' split
  all_goals simp [leftmost_empty_membership, rightmost_empty_membership]

theorem expand_empty_bounds_capacity (cap : Nat → Nat) (s : RegionPartitions) (p : PartitionId) (v : Int) :
    (expand_empty_bounds cap s p v).capacity = s.capacity := by
  unfold expand_empty_bounds
  try simp only []
  repeat' split
  all_goals simp [leftmost_empty_capacity, rightmost_empty_capacity]

theorem expand_empty_bounds_used (cap : Nat → Nat) (s : RegionPartitions) (p : PartitionId) (v : Int) :
    (expand_empty_bounds cap s p v).used = s.used := by
  unfold expand_empty_bounds
  try simp only []
  repeat' split
  all_goals simp [leftmost_empty_used, rightmost_empty_used]

theorem expand_empty_bounds_region_counts (cap : Nat → Nat) (s : RegionPartitions) (p : PartitionId) (v : Int) :
    (expand_empty_bounds cap s p v).region_counts = s.region_counts := by
  unfold expand_empty_bounds
  try simp only []
  repeat' split
  all_goals simp [leftmost_empty_region_counts, rightmost_empty_region_counts]

theorem shrink_interval_if_boundary_modified_max (cap : Nat → Nat) (s : RegionPartitions) (p : PartitionId) (idx : Int) :
    (shrink_interval_if_boundary_modified cap s p idx).max = s.max := by
  unfold shrink_interval_if_boundary_modified
  try simp only []
  repeat' split
  all_goals simp [shrink_store_leftmost_max, shrink_store_rightmost_max,
    shrink_canonicalize_if_crossed_max, expand_empty_bounds_max]

theorem shrink_interval_if_boundary_modified_region_size_bytes (cap : Nat → Nat) (s : RegionPartitions) (p : PartitionId) (idx : Int) :
    (shrink_interval_if_boundary_modified cap s p idx).region_size_bytes = s.region_size_bytes := by
  unfold shrink_interval_if_boundary_modified
  try simp only []
  repeat' split
  all_goals simp [shrink_store_leftmost_region_size_bytes, shrink_store_rightmost_region_size_bytes,
    shrink_canonicalize_if_crossed_region_size_bytes, expand_empty_bounds_region_size_bytes]

theorem shrink_interval_if_boundary_modified_membership (cap : Nat → Nat) (s : RegionPartitions) (p : PartitionId) (idx : Int) :
    (shrink_interval_if_boundary_modified cap s p idx).membership = s.membership := by
  unfold shrink_interval_if_boundary_modified
  try simp only []
  repeat' split
  all_goals simp [shrink_store_leftmost_membership, shrink_store_rightmost_membership,
    shrink_canonicalize_if_crossed_membership, expand_empty_bounds_membership]

theorem shrink_interval_if_boundary_modified_capacity (cap : Nat → Nat) (s : RegionPartitions) (p : PartitionId) (idx : Int) :
    (shrink_interval_if_boundary_modified cap s p idx).capacity = s.capacity := by
  unfold shrink_interval_if_boundary_modified
  try simp only []
  repeat' split
  all_goals simp [shrink_store_leftmost_capacity, shrink_store_rightmost_capacity,
    shrink_canonicalize_if_crossed_capacity, expand_empty_bounds_capacity]

theorem shrink_interval_if_boundary_modified_used (cap : Nat → Nat) (s : RegionPartitions) (p : PartitionId) (idx : Int) :
    (shrink_interval_if_boundary_modified cap s p idx).used = s.used := by
  unfold shrink_interval_if_boundary_modified
  try simp only []
  repeat' split
  all_goals simp [shrink_store_leftmost_used, shrink_store_rightmost_used,
    shrink_canonicalize_if_crossed_used, expand_empty_bounds_used]

theorem shrink_interval_if_boundary_modified_region_counts (cap : Nat → Nat) (s : RegionPartitions) (p : PartitionId) (idx : Int) :
    (shrink_interval_if_boundary_modified cap s p idx).region_counts = s.region_counts := by
  unfold shrink_interval_if_boundary_modified
  try simp only []
  repeat' split
  all_goals simp [shrink_store_leftmost_region_counts, shrink_store_rightmost_region_counts,
    shrink_canonicalize_if_crossed_region_counts, expand_empty_bounds_region_counts]

theorem shrink_interval_if_range_modifies_either_boundary_max (cap : Nat → Nat) (s : RegionPartitions) (p : PartitionId) (low_idx high_idx : Int) :
    (shrink_interval_if_range_modifies_either_boundary cap s p low_idx high_idx).max = s.max := by
  unfold shrink_interval_if_range_modifies_either_boundary
  try simp only []
  repeat' split
  all_goals simp [shrink_store_leftmost_max, shrink_store_rightmost_max,
    shrink_canonicalize_if_crossed_max, expand_empty_bounds_max]

theorem shrink_interval_if_range_modifies_either_boundary_region_size_bytes (cap : Nat → Nat) (s : RegionPartitions) (p : PartitionId) (low_idx high_idx : Int) :
    (shrink_interval_if_range_modifies_either_boundary cap s p low_idx high_idx).region_size_bytes = s.region_size_bytes := by
  unfold shrink_interval_if_range_modifies_either_boundary
  try simp only []
  repeat' split
  all_goals simp [shrink_store_leftmost_region_size_bytes, shrink_store_rightmost_region_size_bytes,
    shrink_canonicalize_if_crossed_region_size_bytes, expand_empty_bounds_region_size_bytes]

theorem shrink_interval_if_range_modifies_either_boundary_membership (cap : Nat → Nat) (s : RegionPartitions) (p : PartitionId) (low_idx high_idx : Int) :
    (shrink_interval_if_range_modifies_either_boundary cap s p low_idx high_idx).membership = s.membership := by
  unfold shrink_interval_if_range_modifies_either_boundary
  try simp only []
  repeat' split
  all_goals simp [shrink_store_leftmost_membership, shrink_store_rightmost_membership,
    shrink_canonicalize_if_crossed_membership, expand_empty_bounds_membership]

theorem shrink_interval_if_range_modifies_either_boundary_capacity (cap : Nat → Nat) (s : RegionPartitions) (p : PartitionId) (low_idx high_idx : Int) :
    (shrink_interval_if_range_modifies_either_boundary cap s p low_idx high_idx).capacity = s.capacity := by
  unfold shrink_interval_if_range_modifies_either_boundary
  try simp only []
  repeat' split
  all_goals simp [shrink_store_leftmost_capacity, shrink_store_rightmost_capacity,
    shrink_canonicalize_if_crossed_capacity, expand_empty_bounds_capacity]

theorem shrink_interval_if_range_modifies_either_boundary_used (cap : Nat → Nat) (s : RegionPartitions) (p : PartitionId) (low_idx high_idx : Int) :
    (shrink_interval_if_range_modifies_either_boundary cap s p low_idx high_idx).used = s.used := by
  unfold shrink_interval_if_range_modifies_either_boundary
  try simp only []
  repeat' split
  all_goals simp [shrink_store_leftmost_used, shrink_store_rightmost_used,
    shrink_canonicalize_if_crossed_used, expand_empty_bounds_used]

theorem shrink_interval_if_range_modifies_either_boundary_region_counts (cap : Nat → Nat) (s : RegionPartitions) (p : PartitionId) (low_idx high_idx : Int) :
    (shrink_interval_if_range_modifies_either_boundary cap s p low_idx high_idx).region_counts = s.region_counts := by
  unfold shrink_interval_if_range_modifies_either_boundary
  try simp only []
  repeat' split
  all_goals simp [shrink_store_leftmost_region_counts, shrink_store_rightmost_region_counts,
    shrink_canonicalize_if_crossed_region_counts, expand_empty_bounds_region_counts]

theorem expand_interval_if_boundary_modified_max (cap : Nat → Nat) (s : RegionPartitions) (p : PartitionId) (idx : Int) (region_available : Nat) :
    (expand_interval_if_boundary_modified cap s p idx region_available).max = s.max := by
  unfold expand_interval_if_boundary_modified
  try simp only []
  repeat' split
  all_goals simp [shrink_store_leftmost_max, shrink_store_rightmost_max,
    shrink_canonicalize_if_crossed_max, expand_empty_bounds_max]

theorem expand_interval_if_boundary_modified_region_size_bytes (cap : Nat → Nat) (s : RegionPartitions) (p : PartitionId) (idx : Int) (region_available : Nat) :
    (expand_interval_if_boundary_modified cap s p idx region_available).region_size_bytes = s.region_size_bytes := by
  unfold expand_interval_if_boundary_modified
  try simp only []
  repeat' split
  all_goals simp [shrink_store_leftmost_region_size_bytes, shrink_store_rightmost_region_size_bytes,
    shrink_canonicalize_if_crossed_region_size_bytes, expand_empty_bounds_region_size_bytes]

theorem expand_interval_if_boundary_modified_membership (cap : Nat → Nat) (s : RegionPartitions) (p : PartitionId) (idx : Int) (region_available : Nat) :
    (expand_interval_if_boundary_modified cap s p idx region_available).membership = s.membership := by
  unfold expand_interval_if_boundary_modified
  try simp only []
  repeat' split
  all_goals simp [shrink_store_leftmost_membership, shrink_store_rightmost_membership,
    shrink_canonicalize_if_crossed_membership, expand_empty_bounds_membership]

theorem expand_interval_if_boundary_modified_capacity (cap : Nat → Nat) (s : RegionPartitions) (p : PartitionId) (idx : Int) (region_available : Nat) :
    (expand_interval_if_boundary_modified cap s p idx region_available).capacity = s.capacity := by
  unfold expand_interval_if_boundary_modified
  try simp only []
  repeat' split
  all_goals simp [shrink_store_leftmost_capacity, shrink_store_rightmost_capacity,
    shrink_canonicalize_if_crossed_capacity, expand_empty_bounds_capacity]

theorem expand_interval_if_boundary_modified_used (cap : Nat → Nat) (s : RegionPartitions) (p : PartitionId) (idx : Int) (region_available : Nat) :
    (expand_interval_if_boundary_modified cap s p idx region_available).used = s.used := by
  unfold expand_interval_if_boundary_modified
  try simp only []
  repeat' split
  all_goals simp [shrink_store_leftmost_used, shrink_store_rightmost_used,
    shrink_canonicalize_if_crossed_used, expand_empty_bounds_used]

theorem expand_interval_if_boundary_modified_region_counts (cap : Nat → Nat) (s : RegionPartitions) (p : PartitionId) (idx : Int) (region_available : Nat) :
    (expand_interval_if_boundary_modified cap s p idx region_available).region_counts = s.region_counts := by
  unfold expand_interval_if_boundary_modified
  try simp only []
  repeat' split
  all_goals simp [shrink_store_leftmost_region_counts, shrink_store_rightmost_region_counts,
    shrink_canonicalize_if_crossed_region_counts, expand_empty_bounds_region_counts]



theorem bitWord_set_self (bitmap : List Nat) (n v : Nat) (h : n < bitmap.length) :
    bitWord (bitmap.set n v) n = v := by
  unfold bitWord
  rw [List.getD_eq_getElem?_getD, List.getElem?_set_self (by simpa using h)]
  rfl

theorem bitWord_set_ne (bitmap : List Nat) (n m v : Nat) (h : m ≠ n) :
    bitWord (bitmap.set n v) m = bitWord bitmap m := by
  unfold bitWord
  rw [List.getD_eq_getElem?_getD, List.getD_eq_getElem?_getD, List.getElem?_set_ne (by omega)]

theorem is_set_length_lt {bitmap : List Nat} {idx : Nat} (h : is_set bitmap idx = true) :
    idx / 64 < bitmap.length := by
  by_contra hcon
  push_neg at hcon
  have hz : bitWord bitmap (idx / 64) = 0 := by
    unfold bitWord
    rw [List.getD_eq_getElem?_getD, List.getElem?_eq_none (by simpa using hcon)]
    rfl
  rw [is_set_eq_testBit, hz] at h
  simp [Nat.zero_testBit] at h

theorem is_set_clear_bit_self (bitmap : List Nat) (idx : Nat) :
    is_set (clear_bit bitmap idx) idx = false := by
  rcases Nat.lt_or_ge (idx / 64) bitmap.length with h | h
  · rw [is_set_eq_testBit]
    unfold clear_bit
    simp only [bitsPerArrayElement]
    rw [bitWord_set_self _ _ _ h, Nat.testBit_land,
      testBit_allOnes64_sub_bit _ _ (by omega)]
    simp
  · rcases hx : is_set (clear_bit bitmap idx) idx with _ | _
    · rfl
    · exact absurd (is_set_length_lt hx) (by simpa [clear_bit] using Nat.not_lt.mpr h)

theorem is_set_clear_bit_ne (bitmap : List Nat) (idx j : Nat) (h : j ≠ idx) :
    is_set (clear_bit bitmap idx) j = is_set bitmap j := by
  rcases Nat.decEq (j / 64) (idx / 64) with hw | hw
  · -- different words
    rw [is_set_eq_testBit, is_set_eq_testBit]
    unfold clear_bit
    simp only [bitsPerArrayElement]
    rw [bitWord_set_ne _ _ _ _ hw]
  · -- same word, different bit
    have hb : j % 64 ≠ idx % 64 := by omega
    rcases Nat.lt_or_ge (idx / 64) bitmap.length with hlen | hlen
    · rw [is_set_eq_testBit, is_set_eq_testBit]
      unfold clear_bit
      simp only [bitsPerArrayElement]
      rw [hw, bitWord_set_self _ _ _ hlen, Nat.testBit_land,
        testBit_allOnes64_sub_bit _ _ (by omega)]
      have e1 : (decide (j % 64 ≠ idx % 64)) = true := decide_eq_true hb
      have e2 : (decide (j % 64 < 64)) = true := decide_eq_true (by omega)
      rw [e1, e2]
      simp
    · unfold clear_bit
      simp only [bitsPerArrayElement]
      rw [List.set_eq_of_length_le (by simpa using hlen)]

theorem is_set_set_bit_self (bitmap : List Nat) (idx : Nat) (hlen : idx / 64 < bitmap.length) :
    is_set (set_bit bitmap idx) idx = true := by
  rw [is_set_eq_testBit]
  unfold set_bit
  simp only [bitsPerArrayElement]
  rw [bitWord_set_self _ _ _ hlen, Nat.testBit_lor]
  have : (1 <<< (idx % 64)).testBit (idx % 64) = true := by
    rw [Nat.shiftLeft_eq, Nat.one_mul, Nat.testBit_two_pow]
    exact decide_eq_true rfl
  rw [this, Bool.or_true]

theorem is_set_set_bit_ne (bitmap : List Nat) (idx j : Nat) (h : j ≠ idx) :
    is_set (set_bit bitmap idx) j = is_set bitmap j := by
  rcases Nat.decEq (j / 64) (idx / 64) with hw | hw
  · rw [is_set_eq_testBit, is_set_eq_testBit]
    unfold set_bit
    simp only [bitsPerArrayElement]
    rw [bitWord_set_ne _ _ _ _ hw]
  · have hb : j % 64 ≠ idx % 64 := by omega
    rcases Nat.lt_or_ge (idx / 64) bitmap.length with hlen | hlen
    · rw [is_set_eq_testBit, is_set_eq_testBit]
      unfold set_bit
      simp only [bitsPerArrayElement]
      rw [hw, bitWord_set_self _ _ _ hlen, Nat.testBit_lor]
      have : (1 <<< (idx % 64)).testBit (j % 64) = false := by
        rw [Nat.shiftLeft_eq, Nat.one_mul, Nat.testBit_two_pow]
        exact decide_eq_false (by omega)
      rw [this, Bool.or_false]
    · unfold set_bit
      simp only [bitsPerArrayElement]
      rw [List.set_eq_of_length_le (by simpa using hlen)]

theorem clear_bit_length (bitmap : List Nat) (idx : Nat) :
    (clear_bit bitmap idx).length = bitmap.length := by
  simp [clear_bit]

theorem set_bit_length (bitmap : List Nat) (idx : Nat) :
    (set_bit bitmap idx).length = bitmap.length := by
  simp [set_bit]

theorem clear_bit_words_lt (bitmap : List Nat) (idx : Nat)
    (hw : ∀ w ∈ bitmap, w < 2 ^ 64) : ∀ w ∈ clear_bit bitmap idx, w < 2 ^ 64 := by
  intro w hwin
  unfold clear_bit at hwin
  simp only [bitsPerArrayElement] at hwin
  rcases List.mem_or_eq_of_mem_set hwin with h | h
  · exact hw w h
  · subst h
    have : bitWord bitmap (idx / 64) &&& (allOnes64 - 1 <<< (idx % 64)) ≤ bitWord bitmap (idx / 64) :=
      Nat.and_le_left
    rcases Nat.lt_or_ge (idx / 64) bitmap.length with hl | hl
    · have hmem : bitWord bitmap (idx / 64) ∈ bitmap := by
        unfold bitWord
        rw [List.getD_eq_getElem?_getD, List.getElem?_eq_getElem (by simpa using hl)]
        exact List.getElem_mem _
      exact Nat.lt_of_le_of_lt this (hw _ hmem)
    · have hz : bitWord bitmap (idx / 64) = 0 := by
        unfold bitWord
        rw [List.getD_eq_getElem?_getD, List.getElem?_eq_none (by simpa using hl)]
        rfl
      rw [hz]
      simp

theorem set_bit_words_lt (bitmap : List Nat) (idx : Nat)
    (hw : ∀ w ∈ bitmap, w < 2 ^ 64) : ∀ w ∈ set_bit bitmap idx, w < 2 ^ 64 := by
  intro w hwin
  unfold set_bit at hwin
  simp only [bitsPerArrayElement] at hwin
  rcases List.mem_or_eq_of_mem_set hwin with h | h
  · exact hw w h
  · subst h
    have hword : bitWord bitmap (idx / 64) < 2 ^ 64 := by
      rcases Nat.lt_or_ge (idx / 64) bitmap.length with hl | hl
      · have hmem : bitWord bitmap (idx / 64) ∈ bitmap := by
          unfold bitWord
          rw [List.getD_eq_getElem?_getD, List.getElem?_eq_getElem (by simpa using hl)]
          exact List.getElem_mem _
        exact hw _ hmem
      · have hz : bitWord bitmap (idx / 64) = 0 := by
          unfold bitWord
          rw [List.getD_eq_getElem?_getD, List.getElem?_eq_none (by simpa using hl)]
          rfl
        rw [hz]
        simp
    have hbit : (1 <<< (idx % 64)) < 2 ^ 64 := by
      rw [Nat.shiftLeft_eq, Nat.one_mul]
      exact Nat.pow_lt_pow_right (by norm_num) (by omega)
    exact Nat.or_lt_two_pow hword hbit



/-! ### Claim C9 -/

/-- Claim C9: for every allocation request of LAB kind (TLAB or GC-lab) whose
size exceeds humongous_threshold_words, allocate raises the fatal assertion and
yields null without reaching allocate_single or allocate_contiguous. -/
theorem allocate_lab_humongous_is_fatal (humongous_threshold_words : Nat) (req : AllocRequest)
    (hsize : req.size > humongous_threshold_words)
    (htype : req.type = .tlab ∨ req.type = .gclab) :
    allocate_dispatch humongous_threshold_words req
        = ⟨.lab_humongous_fatal, true, some false⟩ ∧
    (allocate_dispatch humongous_threshold_words req).path ≠ .single ∧
    (allocate_dispatch humongous_threshold_words req).path ≠ .contiguous := by
  rcases htype with h | h <;>
    (refine ⟨?_, ?_, ?_⟩ <;> simp [allocate_dispatch, h, hsize])

/-- Witness for C9 at a TLAB request of 513 words against a 512-word threshold. -/
theorem allocate_lab_humongous_is_fatal_witness :
    ((513 : Nat) > 512) ∧
    (allocate_dispatch 512 ⟨.tlab, 513, 1⟩ = ⟨.lab_humongous_fatal, true, some false⟩ ∧
     (allocate_dispatch 512 ⟨.tlab, 513, 1⟩).path ≠ .single ∧
     (allocate_dispatch 512 ⟨.tlab, 513, 1⟩).path ≠ .contiguous) :=
  ⟨by decide, allocate_lab_humongous_is_fatal 512 ⟨.tlab, 513, 1⟩ (by decide) (Or.inl rfl)⟩

/-! ### Claim C10 -/

/-- Claim C10: a shared-GC request above the humongous threshold is dispatched
to allocate_contiguous although it is not a mutator allocation, so the entry
assertion of allocate_contiguous is reachable through the public allocate
interface and is violated there. -/
theorem allocate_shared_gc_humongous_violates_contiguous_assertion
    (humongous_threshold_words : Nat) (req : AllocRequest)
    (hsize : req.size > humongous_threshold_words)
    (htype : req.type = .shared_gc) :
    (allocate_dispatch humongous_threshold_words req).path = .contiguous ∧
    allocate_contiguous_entry_assertion req = false := by
  constructor
  · simp [allocate_dispatch, htype, hsize]
  · simp [allocate_contiguous_entry_assertion, htype, is_mutator_alloc]

/-- Witness for C10 at a shared-GC request of 513 words against a 512-word
threshold. -/
theorem allocate_shared_gc_humongous_violates_contiguous_assertion_witness :
    ((513 : Nat) > 512) ∧
    ((allocate_dispatch 512 ⟨.shared_gc, 513, 0⟩).path = .contiguous ∧
     allocate_contiguous_entry_assertion ⟨.shared_gc, 513, 0⟩ = false) :=
  ⟨by decide,
   allocate_shared_gc_humongous_violates_contiguous_assertion 512 ⟨.shared_gc, 513, 0⟩
     (by decide) rfl⟩

/-! ### Claim C6 -/

/-- Claim C6: retiring a member region idx of partition p with
used_bytes < region_size adds the padding remnant region_size - used_bytes to
used[p], clears bit idx of members[p], and decrements count[p] by one. -/
theorem retire_from_partition_accounting (cap : Nat → Nat) (s : RegionPartitions)
    (p : PartitionId) (idx used_bytes : Nat)
    (hmem : is_set (s.membership.get p) idx = true)
    (hu : used_bytes < s.region_size_bytes)
    (hcnt : 0 < s.region_counts.get p) :
    (retire_from_partition cap s p idx used_bytes).used.get p
        = s.used.get p + (s.region_size_bytes - used_bytes) ∧
    is_set ((retire_from_partition cap s p idx used_bytes).membership.get p) idx = false ∧
    (retire_from_partition cap s p idx used_bytes).region_counts.get p + 1
        = s.region_counts.get p := by
  unfold retire_from_partition
  simp only []
  rw [if_pos hu]
  refine ⟨?_, ?_, ?_⟩
  · simp [shrink_interval_if_boundary_modified_used, increase_used, PerPartition.get_set_same]
  · simp only [shrink_interval_if_boundary_modified_membership]
    simp [increase_used, PerPartition.get_set_same, is_set_clear_bit_self]
  · simp only [shrink_interval_if_boundary_modified_region_counts]
    simp [increase_used, PerPartition.get_set_same]
    omega

/-- Witness for C6: a Mutator region with 16 bytes remaining
(used_bytes = 1008 of a 1024-byte region) is retired; the 16 bytes are
credited to used[Mutator]. -/
theorem retire_from_partition_accounting_witness :
    (is_set (c1_after_make_free.membership.get .Mutator) 0 = true ∧
     1008 < c1_after_make_free.region_size_bytes ∧
     0 < c1_after_make_free.region_counts.get .Mutator) ∧
    ((retire_from_partition capZero c1_after_make_free .Mutator 0 1008).used.get .Mutator
        = c1_after_make_free.used.get .Mutator + (c1_after_make_free.region_size_bytes - 1008) ∧
     is_set ((retire_from_partition capZero c1_after_make_free .Mutator 0 1008).membership.get
        .Mutator) 0 = false ∧
     (retire_from_partition capZero c1_after_make_free .Mutator 0 1008).region_counts.get
        .Mutator + 1 = c1_after_make_free.region_counts.get .Mutator) :=
  ⟨⟨by decide, by decide, by decide⟩,
   retire_from_partition_accounting capZero c1_after_make_free .Mutator 0 1008
     (by decide) (by decide) (by decide)⟩



/-! ### Claim C3 -/

/-- The region-scan fold of find_regions_with_alloc_capacity leaves the region
size unchanged. -/
theorem find_regions_foldl_region_size (h : HeapEnv) (plab : Nat) :
    ∀ (l : List Nat) (s : RegionPartitions) (a : RebuildAccum),
      ((l.foldl (find_regions_step h plab) (s, a)).1).region_size_bytes = s.region_size_bytes := by
  intro l
  induction l with
  | nil => intro s a; rfl
  | cons x xs ih =>
    intro s a
    rw [List.foldl_cons]
    have hstep : ((find_regions_step h plab (s, a) x).1).region_size_bytes = s.region_size_bytes := by
      unfold find_regions_step
      try simp only []
      repeat' split
      all_goals rfl
    calc ((xs.foldl (find_regions_step h plab) (find_regions_step h plab (s, a) x)).1).region_size_bytes
        = ((find_regions_step h plab (s, a) x).1).region_size_bytes := by
          have := ih (find_regions_step h plab (s, a) x).1 (find_regions_step h plab (s, a) x).2
          simpa using this
      _ = s.region_size_bytes := hstep

/-- Claim C3 (amended): for every bitmap state and k ≥ 1,
find_next_consecutive_bits(k, start, end) returns the smallest i in
[start, end-k] such that bits [i, i+k) are all set, and returns end when no
such i exists (in particular when end - start < k).  For k = 0 the code does
not return end (see the counterexample below). -/
theorem find_next_consecutive_bits_characterization (bitmap : List Nat)
    (num_bits start_idx boundary_idx : Nat) (hk : 1 ≤ num_bits) :
    ((find_next_consecutive_bits bitmap num_bits start_idx boundary_idx = boundary_idx ∧
        ∀ i, start_idx ≤ i → i + num_bits ≤ boundary_idx → ¬AllSetIn bitmap i num_bits) ∨
      (start_idx ≤ find_next_consecutive_bits bitmap num_bits start_idx boundary_idx ∧
        find_next_consecutive_bits bitmap num_bits start_idx boundary_idx + num_bits ≤ boundary_idx ∧
        AllSetIn bitmap (find_next_consecutive_bits bitmap num_bits start_idx boundary_idx) num_bits ∧
        ∀ i, start_idx ≤ i → i < find_next_consecutive_bits bitmap num_bits start_idx boundary_idx →
          ¬AllSetIn bitmap i num_bits)) ∧
    (boundary_idx < start_idx + num_bits →
      find_next_consecutive_bits bitmap num_bits start_idx boundary_idx = boundary_idx) := by
  refine ⟨find_next_consecutive_bits_spec bitmap num_bits start_idx boundary_idx hk, ?_⟩
  intro hshort
  rcases find_next_consecutive_bits_spec bitmap num_bits start_idx boundary_idx hk with
    ⟨hres, _⟩ | ⟨h1, h2, _, _⟩
  · exact hres
  · omega

/-- Witness for C3 on the one-word bitmap 0b110 (bits 1 and 2 set), k = 2,
range [0, 3): the characterization holds there (the code returns 1). -/
theorem find_next_consecutive_bits_characterization_witness :
    (1 : Nat) ≤ 2 ∧
    (((find_next_consecutive_bits [6] 2 0 3 = 3 ∧
        ∀ i, 0 ≤ i → i + 2 ≤ 3 → ¬AllSetIn [6] i 2) ∨
      (0 ≤ find_next_consecutive_bits [6] 2 0 3 ∧
        find_next_consecutive_bits [6] 2 0 3 + 2 ≤ 3 ∧
        AllSetIn [6] (find_next_consecutive_bits [6] 2 0 3) 2 ∧
        ∀ i, 0 ≤ i → i < find_next_consecutive_bits [6] 2 0 3 → ¬AllSetIn [6] i 2)) ∧
      (3 < 0 + 2 → find_next_consecutive_bits [6] 2 0 3 = 3)) :=
  ⟨by decide, find_next_consecutive_bits_characterization [6] 2 0 3 (by decide)⟩

/-- Counterexample for C3 as stated: the claim says the search returns end for
k = 0, but with bit 0 set, start = 0, end = 4 the code returns 0, not 4. -/
theorem find_next_consecutive_bits_k_zero_counterexample :
    find_next_consecutive_bits exampleBitmapC3 0 0 4 = 0 ∧ (0 : Nat) ≠ 4 :=
  ⟨by decide, by decide⟩

/-! ### Claim C8 -/

/-- Claim C8 (amended): when the alternating-bias counter crosses zero during a
mutator-origin allocate_single call, the new direction is right-to-left exactly
when the index distance rightmost - rightmost_empty exceeds the index distance
leftmost_empty - leftmost (where leftmost_empty and rightmost_empty are the
memoized scans the code performs, which do not move the outer bounds), and the
counter is reset to 256. -/
theorem update_allocation_bias_decision (cap : Nat → Nat) (s : RegionPartitions)
    (b : AllocBiasState) (hw : b.alloc_bias_weight ≤ 0) :
    (update_allocation_bias cap s b).2.alloc_bias_weight = 256 ∧
    (update_allocation_bias cap s b).2.right_to_left_bias
      = decide
          ((rightmost_empty cap (leftmost_empty cap s .Mutator).2 .Mutator).2.rightmost .Mutator
              - (rightmost_empty cap (leftmost_empty cap s .Mutator).2 .Mutator).1
            > (leftmost_empty cap s .Mutator).1
              - (leftmost_empty cap s .Mutator).2.leftmost .Mutator) ∧
    (rightmost_empty cap (leftmost_empty cap s .Mutator).2 .Mutator).2.rightmost .Mutator
      = s.rightmost .Mutator ∧
    (leftmost_empty cap s .Mutator).2.leftmost .Mutator = s.leftmost .Mutator := by
  refine ⟨?_, ?_, ?_, ?_⟩
  · unfold update_allocation_bias
    rw [if_pos hw]
  · unfold update_allocation_bias
    rw [if_pos hw]
  · unfold RegionPartitions.rightmost
    rw [rightmost_empty_rightmosts, leftmost_empty_rightmosts]
  · unfold RegionPartitions.leftmost
    rw [leftmost_empty_leftmosts, leftmost_empty_max]

/-- Witness for C8 on the concrete scenario state (counter at zero). -/
theorem update_allocation_bias_decision_witness :
    ((0 : Int) ≤ 0) ∧
    ((update_allocation_bias c8_cap c8_state ⟨0, false⟩).2.alloc_bias_weight = 256 ∧
     (update_allocation_bias c8_cap c8_state ⟨0, false⟩).2.right_to_left_bias
       = decide
           ((rightmost_empty c8_cap (leftmost_empty c8_cap c8_state .Mutator).2 .Mutator).2.rightmost
                .Mutator
               - (rightmost_empty c8_cap (leftmost_empty c8_cap c8_state .Mutator).2 .Mutator).1
             > (leftmost_empty c8_cap c8_state .Mutator).1
               - (leftmost_empty c8_cap c8_state .Mutator).2.leftmost .Mutator) ∧
     (rightmost_empty c8_cap (leftmost_empty c8_cap c8_state .Mutator).2 .Mutator).2.rightmost
        .Mutator = c8_state.rightmost .Mutator ∧
     (leftmost_empty c8_cap c8_state .Mutator).2.leftmost .Mutator
        = c8_state.leftmost .Mutator) :=
  ⟨by decide, update_allocation_bias_decision c8_cap c8_state ⟨0, false⟩ (by decide)⟩

/-- Counterexample for C8 as stated: on the concrete scenario state the number
of non-empty regions on the right side (3, regions 10-12 in (rightmost_empty,
rightmost]) exceeds the number on the left side (1, region 0 alone in
[leftmost, leftmost_empty), regions 1-3 being fully empty recycled regions),
so the claim predicts right-to-left, but the code compares the index distances
3 and 4 and chooses left-to-right. -/
theorem update_allocation_bias_claimed_counts_counterexample :
    (update_allocation_bias c8_cap c8_state ⟨0, false⟩).2.right_to_left_bias = false ∧
    c8_state.leftmost .Mutator = 0 ∧
    (leftmost_empty c8_cap c8_state .Mutator).1 = 4 ∧
    (rightmost_empty c8_cap c8_state .Mutator).1 = 9 ∧
    c8_state.rightmost .Mutator = 12 ∧
    claimed_non_empty_region_count c8_cap c8_state.region_size_bytes 10 13
      > claimed_non_empty_region_count c8_cap c8_state.region_size_bytes 0 4 :=
  ⟨by decide, by decide, by decide, by decide, by decide, by decide⟩



/-! ### Claim C1 -/

/-- Claim C1 (amended): the capacity equation capacity[P] = count[P] ×
region_size_bytes holds after make_all_regions_unavailable and after
prepare_to_rebuild, and it is preserved by make_free and by
move_from_partition_to_partition (for both partitions); it does not survive
retire_from_partition, which decrements count[P] but deliberately leaves
capacity[P] unchanged (see the counterexample). -/
theorem capacity_equation :
    (∀ (s : RegionPartitions) (p : PartitionId),
      (make_all_regions_unavailable s).capacity.get p
        = (make_all_regions_unavailable s).region_counts.get p * s.region_size_bytes) ∧
    (∀ (h : HeapEnv) (plab : Nat) (s : RegionPartitions) (p : PartitionId),
      (find_regions_with_alloc_capacity h plab s).1.capacity.get p
        = (find_regions_with_alloc_capacity h plab s).1.region_counts.get p
            * s.region_size_bytes) ∧
    (∀ (cap : Nat → Nat) (s : RegionPartitions) (idx : Nat) (p : PartitionId) (avail : Nat),
      s.capacity.get p = s.region_counts.get p * s.region_size_bytes →
      (make_free cap s idx p avail).capacity.get p
        = (make_free cap s idx p avail).region_counts.get p * s.region_size_bytes) ∧
    (∀ (cap : Nat → Nat) (s : RegionPartitions) (idx : Nat) (po pn : PartitionId) (avail : Nat)
       (q : PartitionId),
      po ≠ pn → 1 ≤ s.region_counts.get po →
      (∀ r, s.capacity.get r = s.region_counts.get r * s.region_size_bytes) →
      (move_from_partition_to_partition cap s idx po pn avail).capacity.get q
        = (move_from_partition_to_partition cap s idx po pn avail).region_counts.get q
            * s.region_size_bytes) := by
  refine ⟨?_, ?_, ?_, ?_⟩
  · intro s p
    cases p <;> simp [make_all_regions_unavailable, PerPartition.both, PerPartition.get]
  · intro h plab s p
    have hrsb : (find_regions_with_alloc_capacity h plab s).1.region_size_bytes
        = s.region_size_bytes := by
      unfold find_regions_with_alloc_capacity
      simp only []
      exact find_regions_foldl_region_size h plab (List.range h.num_regions) _ _
    calc (find_regions_with_alloc_capacity h plab s).1.capacity.get p
        = (find_regions_with_alloc_capacity h plab s).1.region_counts.get p
            * (find_regions_with_alloc_capacity h plab s).1.region_size_bytes := by
          cases p
          · rfl
          · show (0 : Nat)
              = 0 * (find_regions_with_alloc_capacity h plab s).1.region_size_bytes
            rw [Nat.zero_mul]
      _ = (find_regions_with_alloc_capacity h plab s).1.region_counts.get p
            * s.region_size_bytes := by rw [hrsb]
  · intro cap s idx p avail heq
    unfold make_free
    simp only []
    rw [expand_interval_if_boundary_modified_capacity,
      expand_interval_if_boundary_modified_region_counts]
    simp [PerPartition.get_set_same, heq, Nat.add_mul, Nat.one_mul]
  · intro cap s idx po pn avail q hne hcnt heq
    unfold move_from_partition_to_partition
    simp only []
    rw [expand_interval_if_boundary_modified_capacity,
      expand_interval_if_boundary_modified_region_counts,
      shrink_interval_if_boundary_modified_capacity,
      shrink_interval_if_boundary_modified_region_counts]
    by_cases hqo : q = po
    · subst hqo
      simp only [PerPartition.get_set_same, PerPartition.get_set_ne _ _ _ _ hne,
        shrink_interval_if_boundary_modified_region_size_bytes,
        expand_interval_if_boundary_modified_region_size_bytes]
      rw [heq q, Nat.sub_mul, Nat.one_mul]
    · have hqn : q = pn := by
        cases q <;> cases po <;> cases pn <;>
          first | rfl | exact absurd rfl hne | exact absurd rfl hqo
      subst hqn
      simp only [PerPartition.get_set_same, PerPartition.get_set_ne _ _ _ _ hqo,
        shrink_interval_if_boundary_modified_region_size_bytes,
        expand_interval_if_boundary_modified_region_size_bytes]
      rw [heq q, Nat.add_mul, Nat.one_mul]

/-- Witness for C1: the equation holds for the fresh four-region table and is
preserved when region 0 is made free in the Mutator partition. -/
theorem capacity_equation_witness :
    ((RegionPartitions.init 4 1024).capacity.get .Mutator
        = (RegionPartitions.init 4 1024).region_counts.get .Mutator
            * (RegionPartitions.init 4 1024).region_size_bytes) ∧
    ((make_free capZero (RegionPartitions.init 4 1024) 0 .Mutator 1024).capacity.get .Mutator
        = (make_free capZero (RegionPartitions.init 4 1024) 0 .Mutator 1024).region_counts.get
            .Mutator * (RegionPartitions.init 4 1024).region_size_bytes) :=
  ⟨by decide,
   capacity_equation.2.2.1 capZero (RegionPartitions.init 4 1024) 0 .Mutator 1024 (by decide)⟩

/-- Counterexample for C1 as stated: after a legal retire_from_partition
(region 0, a Mutator member, retired fully used) the Mutator capacity is still
1024 bytes while the Mutator count is 0, so capacity[P] = count[P] ×
region_size_bytes fails on a public-call boundary. -/
theorem capacity_equation_counterexample :
    c1_after_retire.capacity.get .Mutator = 1024 ∧
    c1_after_retire.region_counts.get .Mutator = 0 ∧
    c1_after_retire.region_size_bytes = 1024 ∧
    ¬ (c1_after_retire.capacity.get .Mutator
        = c1_after_retire.region_counts.get .Mutator * c1_after_retire.region_size_bytes) :=
  ⟨by decide, by decide, by decide, by decide⟩


set_option maxRecDepth 4000
set_option maxHeartbeats 2000000

theorem c4_prepare_eq :
    (find_regions_with_alloc_capacity c4_heap 2048 (RegionPartitions.init 16 1048576)).1
      = c4_after_prepare := by decide

theorem c4_step16 :
    reserve_regions_loop c4_heap 3355443 16 c4_after_prepare
      = reserve_regions_loop c4_heap 3355443 15 c4_after_move15 := by
  show reserve_regions_loop c4_heap 3355443 (15 + 1) c4_after_prepare = _
  rw [reserve_regions_loop]
  simp only []
  rw [if_neg (by decide), if_neg (by decide)]
  congr 1
  all_goals decide

theorem c4_step15 :
    reserve_regions_loop c4_heap 3355443 15 c4_after_move15
      = reserve_regions_loop c4_heap 3355443 14 c4_after_move14 := by
  show reserve_regions_loop c4_heap 3355443 (14 + 1) c4_after_move15 = _
  rw [reserve_regions_loop]
  simp only []
  rw [if_neg (by decide), if_neg (by decide)]
  congr 1
  all_goals decide

theorem c4_step14 :
    reserve_regions_loop c4_heap 3355443 14 c4_after_move14
      = reserve_regions_loop c4_heap 3355443 13 c4_after_move13 := by
  show reserve_regions_loop c4_heap 3355443 (13 + 1) c4_after_move14 = _
  rw [reserve_regions_loop]
  simp only []
  rw [if_neg (by decide), if_neg (by decide)]
  congr 1
  all_goals decide

theorem c4_step13 :
    reserve_regions_loop c4_heap 3355443 13 c4_after_move13
      = reserve_regions_loop c4_heap 3355443 12 c4_final := by
  show reserve_regions_loop c4_heap 3355443 (12 + 1) c4_after_move13 = _
  rw [reserve_regions_loop]
  simp only []
  rw [if_neg (by decide), if_neg (by decide)]
  congr 1
  all_goals decide

theorem c4_step12 :
    reserve_regions_loop c4_heap 3355443 12 c4_final = c4_final := by
  show reserve_regions_loop c4_heap 3355443 (11 + 1) c4_final = c4_final
  rw [reserve_regions_loop]
  simp only []
  rw [if_neg (by decide), if_pos (by decide)]

theorem c4_rebuild_eq :
    rebuild c4_heap 2048 20 (RegionPartitions.init 16 1048576) = c4_final := by
  show reserve_regions_loop c4_heap 3355443 16
      (find_regions_with_alloc_capacity c4_heap 2048 (RegionPartitions.init 16 1048576)).1
    = c4_final
  rw [c4_prepare_eq, c4_step16, c4_step15, c4_step14, c4_step13, c4_step12]

/-- Claim C4 (corrected, amended): with 16 empty 1-MiB regions and
evac_reserve = 20 percent, rebuild produces count[Mutator] = 12,
count[Collector] = 4, leftmost[Mutator] = 0, rightmost[Mutator] = 11,
leftmost[Collector] = 12 and rightmost[Collector] = 15: the reserve is
16 MiB * 20 / 100 = 3355443 bytes, and three 1-MiB regions hold only
3145728 < 3355443 bytes, so a fourth region moves to the Collector. -/
theorem c4_rebuild_scenario_layout :
    (rebuild c4_heap 2048 20 (RegionPartitions.init 16 1048576)).region_counts.get .Mutator
        = 12 ∧
    (rebuild c4_heap 2048 20 (RegionPartitions.init 16 1048576)).region_counts.get .Collector
        = 4 ∧
    (rebuild c4_heap 2048 20 (RegionPartitions.init 16 1048576)).leftmost .Mutator = 0 ∧
    (rebuild c4_heap 2048 20 (RegionPartitions.init 16 1048576)).rightmost .Mutator = 11 ∧
    (rebuild c4_heap 2048 20 (RegionPartitions.init 16 1048576)).leftmost .Collector = 12 ∧
    (rebuild c4_heap 2048 20 (RegionPartitions.init 16 1048576)).rightmost .Collector = 15 := by
  rw [c4_rebuild_eq]
  decide

/-- Counterexample to claim C4 as stated: on the claimed scenario the rebuild
does not give count[Mutator] = 13, count[Collector] = 3, rightmost[Mutator]
= 12 or leftmost[Collector] = 13 (the true values are 12, 4, 11 and 12). -/
theorem c4_rebuild_scenario_counterexample :
    ¬ ((rebuild c4_heap 2048 20 (RegionPartitions.init 16 1048576)).region_counts.get .Mutator
          = 13 ∧
       (rebuild c4_heap 2048 20 (RegionPartitions.init 16 1048576)).region_counts.get .Collector
          = 3 ∧
       (rebuild c4_heap 2048 20 (RegionPartitions.init 16 1048576)).leftmost .Mutator = 0 ∧
       (rebuild c4_heap 2048 20 (RegionPartitions.init 16 1048576)).rightmost .Mutator = 12 ∧
       (rebuild c4_heap 2048 20 (RegionPartitions.init 16 1048576)).leftmost .Collector = 13 ∧
       (rebuild c4_heap 2048 20 (RegionPartitions.init 16 1048576)).rightmost .Collector = 15) := by
  rw [c4_rebuild_eq]
  decide


/-! ### Claim C5 -/

/-- One region scan step either claims the region for the Mutator, raising the
running region count by one, or leaves the count and the running interval
bounds untouched. -/
theorem find_regions_step_mutator_cases (h : HeapEnv) (plab : Nat)
    (sa : RegionPartitions × RebuildAccum) (idx : Nat) :
    (find_regions_step h plab sa idx).2.mutator_regions = sa.2.mutator_regions + 1 ∨
    ((find_regions_step h plab sa idx).2.mutator_leftmost = sa.2.mutator_leftmost ∧
     (find_regions_step h plab sa idx).2.mutator_rightmost = sa.2.mutator_rightmost ∧
     (find_regions_step h plab sa idx).2.mutator_regions = sa.2.mutator_regions) := by
  unfold find_regions_step
  try simp only []
  repeat' split
  all_goals simp

/-- The running Mutator region count never decreases along the region scan. -/
theorem find_regions_foldl_regions_mono (h : HeapEnv) (plab : Nat) :
    ∀ (l : List Nat) (sa : RegionPartitions × RebuildAccum),
      sa.2.mutator_regions ≤ (l.foldl (find_regions_step h plab) sa).2.mutator_regions := by
  intro l
  induction l with
  | nil => intro sa; exact Nat.le_refl _
  | cons x xs ih =>
    intro sa
    rw [List.foldl_cons]
    have h1 : sa.2.mutator_regions ≤ (find_regions_step h plab sa x).2.mutator_regions := by
      rcases find_regions_step_mutator_cases h plab sa x with h1 | ⟨_, _, h3⟩ <;> omega
    exact Nat.le_trans h1 (ih _)

/-- If the region scan ends with zero Mutator regions, the running interval
bounds are still their initial values. -/
theorem find_regions_foldl_zero_interval (h : HeapEnv) (plab : Nat) :
    ∀ (l : List Nat) (sa : RegionPartitions × RebuildAccum),
      (l.foldl (find_regions_step h plab) sa).2.mutator_regions = 0 →
      (l.foldl (find_regions_step h plab) sa).2.mutator_leftmost = sa.2.mutator_leftmost ∧
      (l.foldl (find_regions_step h plab) sa).2.mutator_rightmost = sa.2.mutator_rightmost := by
  intro l
  induction l with
  | nil => intro sa h0; exact ⟨rfl, rfl⟩
  | cons x xs ih =>
    intro sa h0
    rw [List.foldl_cons] at h0 ⊢
    rcases find_regions_step_mutator_cases h plab sa x with h1 | ⟨h2, h3, _⟩
    · have hmono := find_regions_foldl_regions_mono h plab xs (find_regions_step h plab sa x)
      omega
    · obtain ⟨g1, g2⟩ := ih _ h0
      exact ⟨g1.trans h2, g2.trans h3⟩

/-- The region scan leaves the partition count _max unchanged. -/
theorem find_regions_foldl_max (h : HeapEnv) (plab : Nat) :
    ∀ (l : List Nat) (sa : RegionPartitions × RebuildAccum),
      ((l.foldl (find_regions_step h plab) sa).1).max = sa.1.max := by
  intro l
  induction l with
  | nil => intro sa; rfl
  | cons x xs ih =>
    intro sa
    rw [List.foldl_cons, ih]
    unfold find_regions_step
    try simp only []
    repeat' split
    all_goals simp [raw_set_membership]

/-- Claim C5 (corrected, amended): when the rebuild scan assigns no regions to
the Mutator partition, the Mutator interval becomes leftmost = max_regions and
rightmost = 0, not the canonical (max_regions, -1); the emptiness test
leftmost > rightmost still holds (for max_regions > 0), and the Collector
partition does receive the canonical encoding leftmost = max_regions,
rightmost = -1. -/
theorem c5_empty_mutator_bounds (h : HeapEnv) (plab : Nat) (s : RegionPartitions)
    (hmax : 0 < s.max)
    (h0 : (find_regions_with_alloc_capacity h plab s).1.region_counts.get .Mutator = 0) :
    (find_regions_with_alloc_capacity h plab s).1.leftmost .Mutator = (s.max : Int) ∧
    (find_regions_with_alloc_capacity h plab s).1.rightmost .Mutator = 0 ∧
    (find_regions_with_alloc_capacity h plab s).1.partition_is_empty .Mutator = true ∧
    (find_regions_with_alloc_capacity h plab s).1.leftmost .Collector = (s.max : Int) ∧
    (find_regions_with_alloc_capacity h plab s).1.rightmost .Collector = -1 := by
  unfold find_regions_with_alloc_capacity at h0 ⊢
  simp only [] at h0 ⊢
  simp only [establish_intervals, PerPartition.get] at h0
  obtain ⟨hml, hmr⟩ := find_regions_foldl_zero_interval h plab (List.range h.num_regions) _ h0
  have hM := find_regions_foldl_max h plab (List.range h.num_regions)
    (make_all_regions_unavailable s,
     { mutator_leftmost := (make_all_regions_unavailable s).max
       mutator_rightmost := 0
       mutator_leftmost_empty := (make_all_regions_unavailable s).max
       mutator_rightmost_empty := 0
       mutator_regions := 0
       mutator_used := 0
       cset_regions := 0 })
  have hmk : (make_all_regions_unavailable s).max = s.max := rfl
  simp only [] at hml hmr hM
  simp only [establish_intervals, RegionPartitions.leftmost, RegionPartitions.rightmost,
    RegionPartitions.partition_is_empty, PerPartition.get]
  rw [hml, hmr, hM, hmk]
  refine ⟨?_, ?_, ?_, ?_, ?_⟩ <;> simp <;> omega

/-- Witness for C5 (amended): on the host where no region qualifies, the
rebuild scan leaves the Mutator empty and the amended bounds hold. -/
theorem c5_empty_mutator_bounds_witness :
    0 < (RegionPartitions.init 4 1024).max ∧
    (find_regions_with_alloc_capacity c5_heap 128
        (RegionPartitions.init 4 1024)).1.region_counts.get .Mutator = 0 ∧
    ((find_regions_with_alloc_capacity c5_heap 128
        (RegionPartitions.init 4 1024)).1.leftmost .Mutator
          = ((RegionPartitions.init 4 1024).max : Int) ∧
     (find_regions_with_alloc_capacity c5_heap 128
        (RegionPartitions.init 4 1024)).1.rightmost .Mutator = 0 ∧
     (find_regions_with_alloc_capacity c5_heap 128
        (RegionPartitions.init 4 1024)).1.partition_is_empty .Mutator = true ∧
     (find_regions_with_alloc_capacity c5_heap 128
        (RegionPartitions.init 4 1024)).1.leftmost .Collector
          = ((RegionPartitions.init 4 1024).max : Int) ∧
     (find_regions_with_alloc_capacity c5_heap 128
        (RegionPartitions.init 4 1024)).1.rightmost .Collector = -1) :=
  ⟨by decide, by decide,
   c5_empty_mutator_bounds c5_heap 128 (RegionPartitions.init 4 1024)
     (by decide) (by decide)⟩

/-- Counterexample to claim C5 as stated: a full rebuild over a host where no
region qualifies for the free set leaves the Mutator partition with zero
regions, yet rightmost[Mutator] = 0 instead of the canonical -1 (leftmost is
max_regions = 4 as claimed). -/
theorem c5_empty_mutator_counterexample :
    (rebuild c5_heap 128 20 (RegionPartitions.init 4 1024)).region_counts.get .Mutator = 0 ∧
    (rebuild c5_heap 128 20 (RegionPartitions.init 4 1024)).leftmost .Mutator = 4 ∧
    ¬ ((rebuild c5_heap 128 20 (RegionPartitions.init 4 1024)).rightmost .Mutator = -1) := by
  decide


/-! ### Claim C2 -/

/-- The disjointness invariant of spec section 3: no region is simultaneously
a member of the Mutator and the Collector partition. -/
def DisjointMembership (s : RegionPartitions) : Prop :=
  ∀ i, ¬ (is_set (s.membership.get .Mutator) i = true ∧
          is_set (s.membership.get .Collector) i = true)

/-- A freshly cleared bitmap has no set bit. -/
theorem bitWord_replicate_zero : ∀ (k ai : Nat), bitWord (List.replicate k 0) ai = 0
  | 0, _ => rfl
  | _ + 1, 0 => rfl
  | k + 1, ai + 1 => bitWord_replicate_zero k ai

theorem is_set_clear_all (n i : Nat) : is_set (clear_all n) i = false := by
  unfold is_set clear_all
  simp only []
  rw [bitWord_replicate_zero]
  simp

/-- set_bit can only make bit idx newly set. -/
theorem is_set_of_set_bit (w : List Nat) (idx i : Nat)
    (h : is_set (set_bit w idx) i = true) : is_set w i = true ∨ i = idx := by
  by_cases hi : i = idx
  · exact Or.inr hi
  · exact Or.inl (by rw [← is_set_set_bit_ne w idx i hi]; exact h)

/-- clear_bit only clears bits: a bit set afterwards was set before, and is
not the cleared bit. -/
theorem is_set_of_clear_bit (w : List Nat) (idx i : Nat)
    (h : is_set (clear_bit w idx) i = true) : is_set w i = true ∧ i ≠ idx := by
  by_cases hi : i = idx
  · subst hi
    rw [is_set_clear_bit_self] at h
    exact absurd h (by simp)
  · exact ⟨by rw [← is_set_clear_bit_ne w idx i hi]; exact h, hi⟩

theorem is_set_of_foldl_clear_bit :
    ∀ (l : List Nat) (w : List Nat) (i : Nat),
      is_set (l.foldl clear_bit w) i = true → is_set w i = true := by
  intro l
  induction l with
  | nil => intro w i h; exact h
  | cons x xs ih =>
    intro w i h
    rw [List.foldl_cons] at h
    exact (is_set_of_clear_bit w x i (ih _ _ h)).1

theorem is_set_of_clear_bits_in_range (w : List Nat) (lo hi i : Nat)
    (h : is_set (clear_bits_in_range w lo hi) i = true) : is_set w i = true := by
  unfold clear_bits_in_range at h
  exact is_set_of_foldl_clear_bit _ _ _ h

/-- make_free touches the membership bitmaps only by setting bit idx of
partition p. -/
theorem make_free_membership (cap : Nat → Nat) (s : RegionPartitions) (idx : Nat)
    (p : PartitionId) (avail : Nat) :
    (make_free cap s idx p avail).membership
      = s.membership.set p (set_bit (s.membership.get p) idx) := by
  unfold make_free
  simp only []
  rw [expand_interval_if_boundary_modified_membership]

/-- retire_from_partition touches the membership bitmaps only by clearing bit
idx of partition p. -/
theorem retire_from_partition_membership (cap : Nat → Nat) (s : RegionPartitions)
    (p : PartitionId) (idx used_bytes : Nat) :
    (retire_from_partition cap s p idx used_bytes).membership
      = s.membership.set p (clear_bit (s.membership.get p) idx) := by
  unfold retire_from_partition
  simp only []
  rw [shrink_interval_if_boundary_modified_membership]
  split <;> simp [increase_used]

/-- retire_range_from_partition touches the membership bitmaps only by clearing
the bits of the range in partition p. -/
theorem retire_range_from_partition_membership (cap : Nat → Nat) (s : RegionPartitions)
    (p : PartitionId) (lo hi : Nat) :
    (retire_range_from_partition cap s p lo hi).membership
      = s.membership.set p (clear_bits_in_range (s.membership.get p) lo hi) := by
  unfold retire_range_from_partition
  simp only []
  rw [shrink_interval_if_range_modifies_either_boundary_membership]

/-- move_from_partition_to_partition clears the bit in the source partition and
sets it in the destination partition. -/
theorem move_from_partition_to_partition_membership (cap : Nat → Nat)
    (s : RegionPartitions) (idx : Nat) (po pn : PartitionId) (avail : Nat) :
    (move_from_partition_to_partition cap s idx po pn avail).membership
      = (s.membership.set po (clear_bit (s.membership.get po) idx)).set pn
          (set_bit ((s.membership.set po (clear_bit (s.membership.get po) idx)).get pn) idx) := by
  unfold move_from_partition_to_partition
  simp only []
  rw [expand_interval_if_boundary_modified_membership,
    shrink_interval_if_boundary_modified_membership]

/-- The bias update never changes the membership bitmaps. -/
theorem update_allocation_bias_membership (cap : Nat → Nat) (s : RegionPartitions)
    (b : AllocBiasState) :
    (update_allocation_bias cap s b).1.membership = s.membership := by
  unfold update_allocation_bias
  simp only []
  split
  · rw [rightmost_empty_membership, leftmost_empty_membership]
  · rfl

/-- One rebuild-scan step never touches the Collector membership bitmap. -/
theorem find_regions_step_collector_membership (h : HeapEnv) (plab : Nat)
    (sa : RegionPartitions × RebuildAccum) (idx : Nat) :
    ((find_regions_step h plab sa idx).1).membership.get .Collector
      = sa.1.membership.get .Collector := by
  unfold find_regions_step raw_set_membership
  try simp only []
  repeat' split
  all_goals simp [PerPartition.get_set_ne]

theorem find_regions_foldl_collector_membership (h : HeapEnv) (plab : Nat) :
    ∀ (l : List Nat) (sa : RegionPartitions × RebuildAccum),
      (((l.foldl (find_regions_step h plab) sa).1).membership.get .Collector)
        = sa.1.membership.get .Collector := by
  intro l
  induction l with
  | nil => intro sa; rfl
  | cons x xs ih =>
    intro sa
    rw [List.foldl_cons, ih, find_regions_step_collector_membership]

theorem establish_intervals_membership (s : RegionPartitions)
    (ml mr mle mre : Int) (cnt u : Nat) :
    (establish_intervals s ml mr mle mre cnt u).membership = s.membership := rfl

/-- The rebuild scan leaves the Collector empty, so its result is disjoint. -/
theorem find_regions_preserves_disjoint (h : HeapEnv) (plab : Nat)
    (s : RegionPartitions) :
    DisjointMembership (find_regions_with_alloc_capacity h plab s).1 := by
  unfold DisjointMembership
  intro i hcon
  have hc : is_set ((find_regions_with_alloc_capacity h plab s).1.membership.get .Collector) i
      = false := by
    unfold find_regions_with_alloc_capacity
    simp only []
    rw [establish_intervals_membership, find_regions_foldl_collector_membership]
    show is_set (clear_all s.max) i = false
    exact is_set_clear_all _ _
  rw [hcon.2] at hc
  exact absurd hc (by simp)

/-- Moving a region between the two distinct partitions preserves
disjointness. -/
theorem move_preserves_disjoint (cap : Nat → Nat) (s : RegionPartitions) (idx : Nat)
    (po pn : PartitionId) (avail : Nat) (hne : po ≠ pn)
    (hd : DisjointMembership s) :
    DisjointMembership (move_from_partition_to_partition cap s idx po pn avail) := by
  unfold DisjointMembership at hd ⊢
  intro i hcon
  rw [move_from_partition_to_partition_membership] at hcon
  obtain ⟨h1, h2⟩ := hcon
  cases po <;> cases pn
  · exact absurd rfl hne
  · rw [PerPartition.get_set_ne _ _ _ _ (by decide), PerPartition.get_set_same] at h1
    rw [PerPartition.get_set_same, PerPartition.get_set_ne _ _ _ _ (by decide)] at h2
    obtain ⟨hm, hi⟩ := is_set_of_clear_bit _ _ _ h1
    rcases is_set_of_set_bit _ _ _ h2 with hc | hi2
    · exact hd i ⟨hm, hc⟩
    · exact hi hi2
  · rw [PerPartition.get_set_same, PerPartition.get_set_ne _ _ _ _ (by decide)] at h1
    rw [PerPartition.get_set_ne _ _ _ _ (by decide), PerPartition.get_set_same] at h2
    obtain ⟨hc, hi⟩ := is_set_of_clear_bit _ _ _ h2
    rcases is_set_of_set_bit _ _ _ h1 with hm | hi2
    · exact hd i ⟨hm, hc⟩
    · exact hi hi2
  · exact absurd rfl hne

/-- make_free preserves disjointness when the freed region belongs to neither
partition. -/
theorem make_free_preserves_disjoint (cap : Nat → Nat) (s : RegionPartitions)
    (idx : Nat) (p : PartitionId) (avail : Nat)
    (hm : is_set (s.membership.get .Mutator) idx = false)
    (hc : is_set (s.membership.get .Collector) idx = false)
    (hd : DisjointMembership s) :
    DisjointMembership (make_free cap s idx p avail) := by
  unfold DisjointMembership at hd ⊢
  intro i hcon
  rw [make_free_membership] at hcon
  obtain ⟨h1, h2⟩ := hcon
  cases p
  · rw [PerPartition.get_set_same] at h1
    rw [PerPartition.get_set_ne _ _ _ _ (by decide)] at h2
    rcases is_set_of_set_bit _ _ _ h1 with hm' | hi
    · exact hd i ⟨hm', h2⟩
    · subst hi
      rw [h2] at hc
      exact absurd hc (by simp)
  · rw [PerPartition.get_set_ne _ _ _ _ (by decide)] at h1
    rw [PerPartition.get_set_same] at h2
    rcases is_set_of_set_bit _ _ _ h2 with hc' | hi
    · exact hd i ⟨h1, hc'⟩
    · subst hi
      rw [h1] at hm
      exact absurd hm (by simp)

/-- retire_from_partition (which only clears a bit) preserves disjointness. -/
theorem retire_preserves_disjoint (cap : Nat → Nat) (s : RegionPartitions)
    (p : PartitionId) (idx used_bytes : Nat) (hd : DisjointMembership s) :
    DisjointMembership (retire_from_partition cap s p idx used_bytes) := by
  unfold DisjointMembership at hd ⊢
  intro i hcon
  rw [retire_from_partition_membership] at hcon
  obtain ⟨h1, h2⟩ := hcon
  cases p
  · rw [PerPartition.get_set_same] at h1
    rw [PerPartition.get_set_ne _ _ _ _ (by decide)] at h2
    exact hd i ⟨(is_set_of_clear_bit _ _ _ h1).1, h2⟩
  · rw [PerPartition.get_set_ne _ _ _ _ (by decide)] at h1
    rw [PerPartition.get_set_same] at h2
    exact hd i ⟨h1, (is_set_of_clear_bit _ _ _ h2).1⟩

/-- retire_range_from_partition (which only clears bits) preserves
disjointness. -/
theorem retire_range_preserves_disjoint (cap : Nat → Nat) (s : RegionPartitions)
    (p : PartitionId) (lo hi : Nat) (hd : DisjointMembership s) :
    DisjointMembership (retire_range_from_partition cap s p lo hi) := by
  unfold DisjointMembership at hd ⊢
  intro i hcon
  rw [retire_range_from_partition_membership] at hcon
  obtain ⟨h1, h2⟩ := hcon
  cases p
  · rw [PerPartition.get_set_same] at h1
    rw [PerPartition.get_set_ne _ _ _ _ (by decide)] at h2
    exact hd i ⟨is_set_of_clear_bits_in_range _ _ _ _ h1, h2⟩
  · rw [PerPartition.get_set_ne _ _ _ _ (by decide)] at h1
    rw [PerPartition.get_set_same] at h2
    exact hd i ⟨h1, is_set_of_clear_bits_in_range _ _ _ _ h2⟩

theorem reserve_regions_loop_preserves_disjoint (h : HeapEnv) (to_reserve : Nat) :
    ∀ (fuel : Nat) (s : RegionPartitions), DisjointMembership s →
      DisjointMembership (reserve_regions_loop h to_reserve fuel s) := by
  intro fuel
  induction fuel with
  | zero => intro s hd; exact hd
  | succ i ih =>
    intro s hd
    rw [reserve_regions_loop]
    simp only []
    split
    · exact ih s hd
    · split
      · exact hd
      · exact ih _ (move_preserves_disjoint _ _ _ _ _ _ (by decide) hd)

theorem disjoint_of_membership_eq (s t : RegionPartitions)
    (h : t.membership = s.membership) (hd : DisjointMembership s) :
    DisjointMembership t := by
  unfold DisjointMembership at hd ⊢
  intro i hcon
  rw [h] at hcon
  exact hd i hcon

/-- Claim C2 (confirmed): in every state reachable by a sequence of legal
operations from a fresh (all-unavailable) partition state, no region index is
a member of both the Mutator and the Collector membership bitmaps; in
particular the raw membership writes of the rebuild scan and
move_from_partition_to_partition preserve disjointness. -/
theorem reachable_membership_disjoint (s : RegionPartitions) (cap : Nat → Nat)
    (hr : Reachable s cap) :
    ∀ i, ¬ (is_set (s.membership.get .Mutator) i = true ∧
            is_set (s.membership.get .Collector) i = true) := by
  have hd : DisjointMembership s := by
    induction hr with
    | init maxr rsb cap hpos hcap =>
      unfold DisjointMembership
      intro i hcon
      have h1 : (RegionPartitions.init maxr rsb).membership.get .Mutator
          = clear_all maxr := rfl
      rw [h1, is_set_clear_all] at hcon
      exact absurd hcon.1 (by simp)
    | rebuild s cap h plab hr hnum hcap ih =>
      exact find_regions_preserves_disjoint h plab s
    | reserve s cap h to_reserve hr hnum hcap ih =>
      exact reserve_regions_loop_preserves_disjoint h to_reserve h.num_regions s ih
    | make_free_step s cap idx p hr hlt hm hc ih =>
      exact make_free_preserves_disjoint cap s idx p (cap idx) hm hc ih
    | retire s cap p idx used_bytes hr hlt hmem ih =>
      exact retire_preserves_disjoint cap s p idx used_bytes ih
    | retire_range s cap p lo hi hr hle hlt hmem ih =>
      exact retire_range_preserves_disjoint cap s p lo hi ih
    | move s cap idx po pn hr hlt hne hmem ih =>
      exact move_preserves_disjoint cap s idx po pn (cap idx) hne ih
    | query_lme s cap p hr ih =>
      exact disjoint_of_membership_eq s _ (leftmost_empty_membership cap s p) ih
    | query_rme s cap p hr ih =>
      exact disjoint_of_membership_eq s _ (rightmost_empty_membership cap s p) ih
    | bias s cap b hr ih =>
      exact disjoint_of_membership_eq s _ (update_allocation_bias_membership cap s b) ih
    | inc_used s cap p bytes hr ih =>
      exact disjoint_of_membership_eq s _ rfl ih
    | env s cap cap2 hr hle hcap ih =>
      exact ih
  exact hd

/-- Witness for C2: the fresh four-region state is reachable and disjoint. -/
theorem reachable_membership_disjoint_witness :
    Reachable (RegionPartitions.init 4 1024) capZero ∧
    ∀ i, ¬ (is_set ((RegionPartitions.init 4 1024).membership.get .Mutator) i = true ∧
            is_set ((RegionPartitions.init 4 1024).membership.get .Collector) i = true) :=
  ⟨Reachable.init 4 1024 capZero (by decide) (fun _ => Nat.zero_le _),
   reachable_membership_disjoint _ _
     (Reachable.init 4 1024 capZero (by decide) (fun _ => Nat.zero_le _))⟩


/-! ### Claim C7 -/

/-- Host capacities before the C7 scenario's allocation: every region fully
empty. -/
def c7_cap_initial : Nat → Nat := fun _ => 1024

/-- Host capacities after the mutator allocates 512 bytes from region 0:
region 2 is still fully empty, region 0 is not. -/
def c7_cap : Nat → Nat := fun j => if j = 2 then 1024 else 512

/-- Four 1-KiB regions; region 0 made free while fully empty (this plants the
memoized empty hints _leftmosts_empty = _rightmosts_empty = 0). -/
def c7_s1 : RegionPartitions :=
  make_free c7_cap_initial (RegionPartitions.init 4 1024) 0 .Mutator 1024

/-- The same table after the host consumed part of region 0 and region 2 was
made free fully empty: inside this second make_free the rightmost_empty scan
fails (no fully-empty member at or below the stale hint 0) and resets
_leftmosts_empty to _max, clobbering the value the leftmost_empty scan had
just computed. -/
def c7_state : RegionPartitions := make_free c7_cap c7_s1 2 .Mutator 1024

theorem c7_cap_le_initial : ∀ i, c7_cap i ≤ c7_cap_initial i := by
  intro i
  unfold c7_cap c7_cap_initial
  split <;> decide

theorem c7_cap_le : ∀ i, c7_cap i ≤ c7_s1.region_size_bytes := by
  intro i
  have h : c7_s1.region_size_bytes = 1024 := rfl
  rw [h]
  unfold c7_cap
  split <;> decide

/-- The C7 scenario state is reached by legal operations alone: make region 0
free fully empty, let the mutator consume 512 bytes of region 0 (an
environment step that only shrinks capacities of free regions), then make
region 2 free fully empty. -/
theorem c7_state_reachable : Reachable c7_state c7_cap :=
  Reachable.make_free_step c7_s1 c7_cap 2 .Mutator
    (Reachable.env c7_s1 c7_cap_initial c7_cap
      (Reachable.make_free_step (RegionPartitions.init 4 1024) c7_cap_initial 0 .Mutator
        (Reachable.init 4 1024 c7_cap_initial (by decide) (fun _ => Nat.le_refl _))
        (by decide) (by decide) (by decide))
      c7_cap_le (fun i _ => c7_cap_le_initial i))
    (by decide) (by decide) (by decide)

/-- Claim C7 (code bug): in the legally reachable state c7_state the query
leftmost_empty(Mutator) returns max_regions = 4 even though member region 2
is fully empty (alloc_capacity = region_size), contradicting the claim's
guarantee that a max_regions return means no member of the partition is
fully empty.  The cause: expand_interval_if_boundary_modified first lets the
leftmost_empty scan memoize the new empty member, but the subsequent
rightmost_empty scan, finding no fully-empty member at or below its stale
hint, resets _leftmosts_empty to _max before the expansion code repairs only
_rightmosts_empty; the next leftmost_empty call then takes the
_leftmosts_empty == _max early exit. -/
theorem c7_leftmost_empty_returns_max_despite_empty_member :
    Reachable c7_state c7_cap ∧
    (leftmost_empty c7_cap c7_state .Mutator).1 = (c7_state.max : Int) ∧
    2 < c7_state.max ∧
    is_set (c7_state.membership.get .Mutator) 2 = true ∧
    c7_cap 2 = c7_state.region_size_bytes :=
  ⟨c7_state_reachable, by decide, by decide, by decide, by decide⟩

end Shenandoah
